import Mathlib

/-!
Verification development for the filter-storage subsystem
(src/filters/filter_storage.go): a shallow embedding of the registry
operations (Add, Delete, Modify), the downloader/validator pipeline
(downloadFilter, writeFile, splitNext, parseFilter), the per-pass update
loop (updateAll, getNextToUpdate) and the commit phase (applyUpdate),
together with theorems about them.

Modelling conventions:
* bytes are natural numbers (values 0-255) and byte streams are lists;
* the stream handed to writeFile is a list of read chunks, the last chunk
  is delivered together with the end-of-stream condition (io.EOF);
* the filter directory is a map from file name to file data;
* timestamps are natural numbers (Unix seconds); every call of
  time.Now inside one operation is modelled by one `now` value;
* fallible external steps (temp-file creation, local open, HTTP
  transport, file write, rename) are decided by an explicit environment;
* strings.TrimSpace / strings.ToLower are modelled on the ASCII range,
  which is exact for the byte values the validator accepts.
-/

set_option maxRecDepth 10000

namespace AdGuard

/-- Whitespace bytes removed by strings.TrimSpace (ASCII range). -/
def isSpaceByte (c : Nat) : Bool :=
  c = 32 || c = 9 || c = 10 || c = 11 || c = 12 || c = 13

/-- Drop leading whitespace bytes. -/
def trimLeft : List Nat → List Nat
  | [] => []
  | c :: t => if isSpaceByte c then trimLeft t else c :: t

/-- strings.TrimSpace on a byte sequence: drop whitespace on both ends. -/
def trimSpace (s : List Nat) : List Nat :=
  (trimLeft (trimLeft s).reverse).reverse

/-- strings.IndexByte: position of the first occurrence of b, none if absent. -/
def idxOfByte : List Nat → Nat → Option Nat
  | [], _ => none
  | c :: t, b => if c = b then some 0 else (idxOfByte t b).map (· + 1)

/-- splitNext - split string by a byte, whitespace is trimmed.
Returns the byte position (none encodes the Go return value -1), the
trimmed first chunk, and the updated remainder of the data. -/
def splitNext (data : List Nat) (b : Nat) : Option Nat × List Nat × List Nat :=
  match idxOfByte data b with
  | none => (none, trimSpace data, [])
  | some i => (some i, trimSpace (data.take i), data.drop (i + 1))

/-- A line is skipped by the rule counters when it is empty or starts
with '#' (35) or '!' (33). -/
def skipLine : List Nat → Bool
  | [] => true
  | c :: _ => c = 35 || c = 33

/-- ASCII lower-casing of one byte (strings.ToLower on ASCII). -/
def toLowerByte (c : Nat) : Nat := if 65 ≤ c ∧ c ≤ 90 then c + 32 else c

/-- strings.Contains for byte sequences. -/
def containsSeq (hay pat : List Nat) : Bool :=
  if pat.isPrefixOf hay then true
  else
    match hay with
    | [] => false
    | _ :: t => containsSeq t pat

/-- The bytes of "<html". -/
def htmlPat1 : List Nat := [60, 104, 116, 109, 108]

/-- The bytes of "<!doctype". -/
def htmlPat2 : List Nat := [60, 33, 100, 111, 99, 116, 121, 112, 101]

/-- isHTML: case-insensitive search for "<html" or "<!doctype". -/
def isHTML (buf : List Nat) : Bool :=
  containsSeq (buf.map toLowerByte) htmlPat1 ||
  containsSeq (buf.map toLowerByte) htmlPat2

/-- gatherUntil: append to dst from src up to the size cap.  The Go
function copies into a fixed buffer and returns the copied count; the
model returns the grown buffer directly. -/
def gatherUntil (dst src : List Nat) (cap : Nat) : List Nat :=
  dst ++ src.take (cap - dst.length)

/-- isPrintableText: allows bytes that are at least 0x20 and not 0x7f,
plus LF, CR and TAB. -/
def isPrintableText (data : List Nat) : Bool :=
  data.all fun c => (decide (32 ≤ c) && decide (c ≠ 127)) || c = 10 || c = 13 || c = 9

/-- The inner line-splitting loop of writeFile, with explicit fuel (each
step strictly shortens s, so any fuel above s.length is exact).  Mirrors:
for len(s) != 0 { i, line := splitNext(&s, '\n');
  if i < 0 && err != io.EOF { break }; chunk = []byte(s);
  if skip(line) { continue }; ruleCount++ }.
The first component is the final value of the Go variable chunk (the
carried partial line), the second the rule count. -/
def countLoopF (eof : Bool) : Nat → List Nat → List Nat → Nat → List Nat × Nat
  | 0, chunk, _, rc => (chunk, rc)
  | fuel + 1, chunk, s, rc =>
    if s = [] then (chunk, rc)
    else
      let r := splitNext s 10
      if r.1 = none ∧ eof = false then (chunk, rc)
      else
        let rc' := if skipLine r.2.1 then rc else rc + 1
        countLoopF eof fuel r.2.2 r.2.2 rc'

/-- The line-splitting loop with sufficient fuel. -/
def countLoop (eof : Bool) (chunk s : List Nat) (rc : Nat) : List Nat × Nat :=
  countLoopF eof (s.length + 1) chunk s rc

/-- Error taxonomy of the module. -/
inductive FErr where
  | tempCreate
  | openFile
  | network
  | httpStatus (code : Nat)
  | nonPrintable
  | htmlContent
  | ioWrite
  | renameFail
  | duplicate
  | notFound
deriving DecidableEq

/-- Mutable state of one writeFile call. -/
structure WState where
  ruleCount : Nat
  total : Nat
  carry : List Nat
  firstChunk : Option (List Nat)
  written : List Nat
  writes : Nat
deriving DecidableEq

/-- The rolling-prefix (firstChunk) bookkeeping of one writeFile
iteration: gather up to 4096 bytes; once full or at end of stream, run
the HTML sniff and drop the buffer. -/
def firstChunkStep (eof : Bool) (buf : List Nat) :
    Option (List Nat) → Except FErr (Option (List Nat))
  | none => .ok none
  | some fc =>
    let fc' := gatherUntil fc buf 4096
    if fc'.length = 4096 ∨ eof = true then
      if isHTML fc' then .error .htmlContent else .ok none
    else .ok (some fc')

/-- The chunk loop of writeFile.  wfail is the index of the outFile.Write
call that fails (none when every write succeeds). -/
def writeFileLoop (wfail : Option Nat) : List (List Nat) → WState → Except FErr WState
  | [], st => .ok st
  | buf :: rest, st =>
    let eof := rest.isEmpty
    let st1 := { st with total := st.total + buf.length }
    if isPrintableText buf = false then .error .nonPrintable
    else
      match firstChunkStep eof buf st1.firstChunk with
      | .error e => .error e
      | .ok fc' =>
        if wfail = some st1.writes then .error .ioWrite
        else
          let s0 := st1.carry ++ buf
          let cr := countLoop eof s0 s0 st1.ruleCount
          let st2 : WState :=
            { st1 with firstChunk := fc', writes := st1.writes + 1,
                       written := st1.written ++ buf,
                       carry := cr.1, ruleCount := cr.2 }
          if eof then .ok st2 else writeFileLoop wfail rest st2

/-- writeFile: read data, validate, count rules, write to the staging
file.  An empty stream is one empty read returning io.EOF. -/
def writeFile (wfail : Option Nat) (chunks : List (List Nat)) : Except FErr WState :=
  writeFileLoop wfail (if chunks.isEmpty then [[]] else chunks) ⟨0, 0, [], some [], [], 0⟩

/-- The loop of parseFilter, with explicit fuel (each step strictly
shortens s).  ReadString('\n') yields the line including the delimiter;
at end of stream it yields the remainder, which is still processed. -/
def parseFilterLoopF : Nat → List Nat → Nat → Nat
  | 0, _, rc => rc
  | fuel + 1, s, rc =>
    match idxOfByte s 10 with
    | some i =>
      let line := trimSpace (s.take (i + 1))
      let rc' := if skipLine line then rc else rc + 1
      parseFilterLoopF fuel (s.drop (i + 1)) rc'
    | none =>
      let line := trimSpace s
      if skipLine line then rc else rc + 1

/-- parseFilter: read file data and count the number of rules. -/
def parseFilter (content : List Nat) : Nat :=
  parseFilterLoopF (content.length + 1) content 0

/-- Modelled from the spec: split content on line breaks into segments
("split on line breaks").  Used only as the reference for the rule-count
refinement theorems. -/
def splitOnByte : List Nat → List (List Nat)
  | [] => [[]]
  | c :: t =>
    if c = 10 then [] :: splitOnByte t
    else
      match splitOnByte t with
      | [] => [[c]]
      | h :: t2 => (c :: h) :: t2

/-- Modelled from the spec: the number of lines that, after trimming
surrounding whitespace, are nonempty and do not start with '#' or '!'. -/
def specRuleCount (content : List Nat) : Nat :=
  ((splitOnByte content).map trimSpace).countP (fun l => !skipLine l)

/-- Modelled from the spec (the Filter declaration is not under src):
one filter descriptor. -/
structure Filter where
  ID : Nat
  Name : String
  URL : String
  Enabled : Bool
  RuleCount : Nat
  LastUpdated : Nat
  LastModified : String
  nextUpdate : Nat
  networkError : Bool
  Path : String
deriving DecidableEq

/-- Content and modification time of one file. -/
structure FileData where
  content : List Nat
  mtime : Nat
deriving DecidableEq

/-- The filter directory as a map from file name to file data. -/
def FS := String → Option FileData

/-- Create or overwrite a file. -/
def fsSet (fs : FS) (name : String) (d : FileData) : FS :=
  fun n => if n = name then some d else fs n

/-- os.Remove (removing a missing file is a logged no-op everywhere the
module ignores the error). -/
def fsRemove (fs : FS) (name : String) : FS :=
  fun n => if n = name then none else fs n

/-- os.Rename: move src over dst; renaming a missing source fails and
leaves the directory unchanged. -/
def fsRename (fs : FS) (src dst : String) : FS :=
  match fs src with
  | none => fs
  | some d => fun n => if n = src then none else if n = dst then some d else fs n

/-- os.Chtimes: update the modification time of an existing file. -/
def chtimes (fs : FS) (name : String) (t : Nat) : FS :=
  match fs name with
  | none => fs
  | some d => fsSet fs name { d with mtime := t }

/-- filepath.IsAbs on Unix: the path begins with '/'. -/
def isAbs (url : String) : Bool :=
  match url.data with
  | [] => false
  | c :: _ => c = '/'

/-- filePath: FilterDir/<id>.txt. -/
def filePath (dir : String) (f : Filter) : String :=
  dir ++ "/" ++ toString f.ID ++ ".txt"

/-- Environment of one downloadFilter call: the outcomes of its fallible
external steps.  transport = none is a transport-level failure; otherwise
it carries the HTTP status, the Last-Modified header and the body chunks.
localChunks plays the same role for a local absolute path. -/
structure DLEnv where
  tmpOk : Bool
  tmpName : String
  localChunks : Option (List (List Nat))
  transport : Option (Nat × String × List (List Nat))
  wfail : Option Nat
  renameOk : Bool
  now : Nat

/-- The tail of downloadFilter after the reader is in place: validate and
write to the temp file, close it, rename it into place; on any error the
deferred handler removes the temp file. -/
def dlWrite (dir : String) (env : DLEnv) (f : Filter) (fs1 : FS)
    (chunks : List (List Nat)) : Option FErr × Filter × FS :=
  match writeFile env.wfail chunks with
  | .error e => (some e, f, fsRemove fs1 env.tmpName)
  | .ok st =>
    let f1 := { f with RuleCount := st.ruleCount }
    let fs2 := fsSet fs1 env.tmpName ⟨st.written, env.now⟩
    let fname := filePath dir f1
    if env.renameOk = false then (some .renameFail, f1, fsRemove fs2 env.tmpName)
    else (none, { f1 with Path := fname, LastUpdated := env.now },
          fsRename fs2 env.tmpName fname)

/-- downloadFilter: download filter data.  Returns the error, the updated
descriptor (Path set to the staged file, or "" when not modified), and
the new directory state. -/
def downloadFilter (dir : String) (env : DLEnv) (f : Filter) (fs : FS) :
    Option FErr × Filter × FS :=
  if env.tmpOk = false then (some .tempCreate, f, fs)
  else
    let fs1 := fsSet fs env.tmpName ⟨[], env.now⟩
    if isAbs f.URL then
      match env.localChunks with
      | none => (some .openFile, f, fsRemove fs1 env.tmpName)
      | some chunks => dlWrite dir env f fs1 chunks
    else
      match env.transport with
      | none => (some .network, { f with networkError := true }, fsRemove fs1 env.tmpName)
      | some (code, lm, chunks) =>
        if code = 304 then
          (none, { f with LastUpdated := env.now, Path := "" }, fsRemove fs1 env.tmpName)
        else if code ≠ 200 then
          (some (.httpStatus code), f, fsRemove fs1 env.tmpName)
        else
          dlWrite dir env { f with LastModified := lm } fs1 chunks

/-- Registry state: the configuration fields the claims touch plus the
atomic id counter of filterStg. -/
structure Stg where
  dir : String
  updateIntervalHours : Nat
  list : List Filter
  nextID : Nat

/-- The zero Filter value (Go Filter{}). -/
def emptyFilter : Filter := ⟨0, "", "", false, 0, 0, "", 0, false, ""⟩

/-- Add - add filter. -/
def Add (s : Stg) (fs : FS) (env : DLEnv) (nf : Filter) : Stg × FS × Option FErr :=
  if s.list.any (fun f => f.Name == nf.Name || f.URL == nf.URL) then
    (s, fs, some .duplicate)
  else
    let nid := s.nextID + 1
    let s1 := { s with nextID := nid }
    let nf1 := { nf with ID := nid, Enabled := true }
    match downloadFilter s1.dir env nf1 fs with
    | (some e, _, fs') => (s1, fs', some e)
    | (none, nf2, fs') => ({ s1 with list := s1.list ++ [nf2] }, fs', none)

/-- Delete - remove filter.  All entries with the url are dropped; the
returned descriptor is the last match, with its path resolved. -/
def Delete (s : Stg) (url : String) : Stg × Option Filter :=
  match (s.list.filter (fun f => f.URL == url)).getLast? with
  | none => (s, none)
  | some f =>
    ({ s with list := s.list.filter (fun f => f.URL != url) },
     some { f with Path := filePath s.dir f })

/-- Modelled from the spec: the change-flag bit for enabled. -/
def StatusChangedEnabled : Nat := 1

/-- Modelled from the spec: the change-flag bit for url. -/
def StatusChangedURL : Nat := 2

/-- Result of the Modify scan. -/
structure MRes where
  list : List Filter
  nextID : Nat
  fs : FS
  st : Nat
  backup : Filter
  err : Option FErr
  didDownload : Bool

/-- The needDownload branch of Modify: clear LastModified and RuleCount,
download; on failure restore the descriptor from the backup and return
(0, Filter{}, err). -/
def modifyDownload (dir : String) (env : DLEnv) (backup f : Filter) (t : List Filter)
    (nid : Nat) (fs : FS) (st : Nat) : MRes :=
  let f1 := { f with LastModified := "", RuleCount := 0 }
  match downloadFilter dir env f1 fs with
  | (some e, _, fs') => ⟨backup :: t, nid, fs', 0, emptyFilter, some e, true⟩
  | (none, f2, fs') => ⟨f2 :: t, nid, fs', st, backup, none, true⟩

/-- The change-detection head of Modify on the matched descriptor:
set the name, compare enabled and url, build the Status* bitmask. -/
def modifyFlags (f : Filter) (enabled : Bool) (name newURL : String) : Filter × Nat :=
  let f1 := { f with Name := name }
  let p2 := if f1.Enabled != enabled
            then ({ f1 with Enabled := enabled }, StatusChangedEnabled)
            else (f1, 0)
  if p2.1.URL != newURL
  then ({ p2.1 with URL := newURL }, p2.2 ||| StatusChangedURL)
  else p2

/-- The body of Modify once the descriptor with the given url is found
(f is both the matched entry and the backup snapshot). -/
def modifyMatch (dir : String) (env : DLEnv) (enabled : Bool) (name newURL : String)
    (nid : Nat) (fs : FS) (f : Filter) (t : List Filter) : MRes :=
  let fp := modifyFlags f enabled name newURL
  if fp.2 &&& StatusChangedURL ≠ 0 then
    modifyDownload dir env f { fp.1 with ID := nid + 1 } t (nid + 1) fs fp.2
  else if fp.2 &&& StatusChangedEnabled ≠ 0 ∧ enabled = true then
    match fs (filePath dir fp.1) with
    | none => modifyDownload dir env f fp.1 t nid fs fp.2
    | some d =>
      ⟨{ fp.1 with RuleCount := parseFilter d.content } :: t, nid, fs, fp.2,
       f, none, false⟩
  else ⟨fp.1 :: t, nid, fs, fp.2, f, none, false⟩

/-- The scan of Modify over the registry list. -/
def modifyLoop (dir : String) (env : DLEnv) (url : String) (enabled : Bool)
    (name newURL : String) (nid : Nat) (fs : FS) : List Filter → MRes
  | [] => ⟨[], nid, fs, 0, emptyFilter, some .notFound, false⟩
  | f :: t =>
    if f.URL == url then
      modifyMatch dir env enabled name newURL nid fs f t
    else
      let r := modifyLoop dir env url enabled name newURL nid fs t
      { r with list := f :: r.list }

/-- Result of Modify: the new registry state, the directory state, the
Status* bitmask, the previous descriptor, the error, and whether a
download was performed (the needDownload flag). -/
structure ModifyResult where
  stg : Stg
  fs : FS
  st : Nat
  backup : Filter
  err : Option FErr
  didDownload : Bool

/-- Modify - set filter properties. -/
def Modify (s : Stg) (fs : FS) (env : DLEnv) (url : String) (enabled : Bool)
    (name newURL : String) : ModifyResult :=
  let r := modifyLoop s.dir env url enabled name newURL s.nextID fs s.list
  ⟨{ s with list := r.list, nextID := r.nextID }, r.fs, r.st, r.backup, r.err,
   r.didDownload⟩

/-- Observable events of the apply phase, in program order. -/
inductive AEvent where
  | beforeUpdate
  | lockAcquired
  | afterUpdate
deriving DecidableEq

/-- The scan of applyUpdate for one batch entry: locate the live
descriptor by url.  A not-modified entry (empty Path) updates the file
time and keeps scanning; a staged entry is renamed over the live file and
the scan breaks. -/
def applyOne (dir : String) (uf : Filter) : List Filter → FS → List Filter × FS × Bool
  | [], fs => ([], fs, false)
  | f :: t, fs =>
    if uf.URL == f.URL then
      let fpath := filePath dir f
      let f1 := { f with LastUpdated := uf.LastUpdated }
      if uf.Path == "" then
        let fs1 := chtimes fs fpath f1.LastUpdated
        let r := applyOne dir uf t fs1
        (f1 :: r.1, r.2.1, true)
      else
        ({ f1 with RuleCount := uf.RuleCount } :: t, fsRename fs uf.Path fpath, true)
    else
      let r := applyOne dir uf t fs
      (f :: r.1, r.2.1, r.2.2)

/-- The outer loop of applyUpdate over the batch; an entry whose url is
no longer live has its staged file removed. -/
def applyLoop (dir : String) : List Filter → FS → List Filter → List Filter × FS
  | list, fs, [] => (list, fs)
  | list, fs, uf :: rest =>
    let r := applyOne dir uf list fs
    let fs1 := if r.2.2 then r.2.1 else fsRemove r.2.1 (filePath dir uf)
    applyLoop dir r.1 fs1 rest

/-- applyUpdate: replace filter files.  Observer notifications and the
lock acquisition are returned as an event trace. -/
def applyUpdate (dir : String) (list : List Filter) (fs : FS)
    (updated : List Filter) : List Filter × FS × List AEvent :=
  if updated.isEmpty then (list, fs, [])
  else
    let r := applyLoop dir list fs updated
    (r.1, r.2, [.beforeUpdate, .lockAcquired, .afterUpdate])

/-- getNextToUpdate: first enabled descriptor that is due; it is
immediately rescheduled to now + interval.  Returns its index, the
rescheduled descriptor, and the updated list. -/
def getNextToUpdate (now intervalSecs : Nat) :
    List Filter → Option (Nat × Filter × List Filter)
  | [] => none
  | f :: t =>
    if f.Enabled = true ∧ f.nextUpdate ≤ now then
      let f1 := { f with nextUpdate := now + intervalSecs }
      some (0, f1, f1 :: t)
    else
      match getNextToUpdate now intervalSecs t with
      | none => none
      | some (i, sel, t1) => some (i + 1, sel, f :: t1)

/-- State of one update pass. -/
structure UState where
  list : List Filter
  nextID : Nat
  fs : FS
  updated : List Filter
  attempted : List String

/-- The loop of updateAll, with fuel (each iteration turns one due
filter not-due, so list.length fuel is exact): pick the next due filter,
allocate a fresh id, download; a transport failure reschedules the
original descriptor to now + 10 and the loop continues; any other
failure is skipped; a success is appended to the batch.  The urls of the
attempted filters are recorded in order. -/
def updateAllLoop (dir : String) (ih now : Nat) (envs : Nat → DLEnv) :
    Nat → Nat → UState → UState
  | 0, _, st => st
  | fuel + 1, attempt, st =>
    match getNextToUpdate now (ih * 3600) st.list with
    | none => st
    | some (i, sel, list1) =>
      let nid := st.nextID + 1
      let uf := { sel with ID := nid }
      match downloadFilter dir (envs attempt) uf st.fs with
      | (some _, uf1, fs1) =>
        let list2 := if uf1.networkError
                     then list1.set i { sel with nextUpdate := now + 10 }
                     else list1
        updateAllLoop dir ih now envs fuel (attempt + 1)
          ⟨list2, nid, fs1, st.updated, st.attempted ++ [sel.URL]⟩
      | (none, uf1, fs1) =>
        updateAllLoop dir ih now envs fuel (attempt + 1)
          ⟨list1, nid, fs1, st.updated ++ [uf1], st.attempted ++ [sel.URL]⟩

/-- updateAll: the fetch phase of one update pass (the apply phase is
applyUpdate). -/
def updateAll (dir : String) (ih now : Nat) (envs : Nat → DLEnv) (st : UState) : UState :=
  updateAllLoop dir ih now envs st.list.length 0 st

/-- A filter is due when it is enabled and its nextUpdate has passed. -/
def dueB (now : Nat) (f : Filter) : Bool :=
  f.Enabled && decide (f.nextUpdate ≤ now)

/-- Number of due filters in a list. -/
def dueCount (now : Nat) (l : List Filter) : Nat := l.countP (dueB now)

/-- A download environment returning HTTP 200 with an empty body,
used by the concrete registry traces. -/
def cexEnv (tmp : String) : DLEnv := ⟨true, tmp, none, some (200, "lm", [[]]), none, true, 1000⟩

/-- A fresh descriptor with the given name and url. -/
def cexFilter (nm u : String) : Filter := { emptyFilter with Name := nm, URL := u }

/-- Empty initial registry for the concrete traces. -/
def cexS0 : Stg := ⟨"d", 24, [], 100⟩

/-- Empty initial directory for the concrete traces. -/
def cexFS0 : FS := fun _ => none

/-- First step of the concrete trace: Add "a"/"u1". -/
def cexP1 : Stg × FS × Option FErr := Add cexS0 cexFS0 (cexEnv "t1") (cexFilter "a" "u1")

/-- Second step: Add "b"/"u2". -/
def cexP2 : Stg × FS × Option FErr := Add cexP1.1 cexP1.2.1 (cexEnv "t2") (cexFilter "b" "u2")

/-- Third step: Modify "u2" to name "a" and url "u1". -/
def cexM : ModifyResult := Modify cexP2.1 cexP2.2.1 (cexEnv "t3") "u2" true "a" "u1"

/-- One public mutation of the registry. -/
inductive FStep : Stg × FS → Stg × FS → Prop where
  | add (s : Stg) (fs : FS) (env : DLEnv) (nf : Filter) :
      FStep (s, fs) ((Add s fs env nf).1, (Add s fs env nf).2.1)
  | del (s : Stg) (fs : FS) (url : String) :
      FStep (s, fs) ((Delete s url).1, fs)
  | mod (s : Stg) (fs : FS) (env : DLEnv) (url : String) (enabled : Bool)
      (name newURL : String) :
      FStep (s, fs) ((Modify s fs env url enabled name newURL).stg,
                     (Modify s fs env url enabled name newURL).fs)

/-- Registry states reachable from an empty registry by Add, Delete and
Modify. -/
inductive Reachable : Stg × FS → Prop where
  | init (dir : String) (ih n0 : Nat) (fs0 : FS) : Reachable (⟨dir, ih, [], n0⟩, fs0)
  | step {p q : Stg × FS} : Reachable p → FStep p q → Reachable q

/-- No two descriptors agree on both name and url. -/
def pairsUniqueB : List Filter → Bool
  | [] => true
  | f :: t => t.all (fun g => !(f.Name == g.Name && f.URL == g.URL)) && pairsUniqueB t

/-- All descriptor ids are distinct. -/
def idsUniqueB : List Filter → Bool
  | [] => true
  | f :: t => t.all (fun g => f.ID != g.ID) && idsUniqueB t

/-- The example content "# c\n||ads.example^\n\n! c2\n||track.net^\n" as
bytes. -/
def contentC4 : List Nat :=
  [35, 32, 99, 10,
   124, 124, 97, 100, 115, 46, 101, 120, 97, 109, 112, 108, 101, 94, 10,
   10,
   33, 32, 99, 50, 10,
   124, 124, 116, 114, 97, 99, 107, 46, 110, 101, 116, 94, 10]

/-- A due filter for the concrete update pass. -/
def c8f1 : Filter := ⟨1, "A", "http://a.example/f.txt", true, 0, 0, "", 0, false, ""⟩

/-- A second due filter for the concrete update pass. -/
def c8f2 : Filter := ⟨2, "B", "http://b.example/f.txt", true, 0, 0, "", 40, false, ""⟩

/-- Initial state of the concrete update pass at now = 50. -/
def c8st0 : UState := ⟨[c8f1, c8f2], 10, cexFS0, [], []⟩

/-- The first selected filter, rescheduled to now + 1 hour. -/
def c8sel : Filter := { c8f1 with nextUpdate := 3650 }

/-- A download environment failing at the transport level. -/
def c8envA : DLEnv := ⟨true, "t8", none, none, none, true, 50⟩

/-- A download environment answering HTTP 500. -/
def c8envB : DLEnv := ⟨true, "t8", none, some (500, "", []), none, true, 50⟩

/-! Helper lemmas about the directory model. -/

theorem fsSet_self (fs : FS) (k : String) (d : FileData) : fsSet fs k d k = some d := by
  simp [fsSet]

theorem fsRemove_fsSet (fs : FS) (k : String) (d : FileData) (h : fs k = none) :
    fsRemove (fsSet fs k d) k = fs := by
  funext n
  by_cases hn : n = k
  · subst hn; simp [fsRemove, h]
  · simp [fsRemove, fsSet, hn]

theorem fsSet_fsSet (fs : FS) (k : String) (a b : FileData) :
    fsSet (fsSet fs k a) k b = fsSet fs k b := by
  funext n
  by_cases hn : n = k <;> simp [fsSet, hn]

theorem fsRename_fsSet (fs : FS) (tmp dst : String) (d : FileData)
    (hne : tmp ≠ dst) (h : fs tmp = none) :
    fsRename (fsSet fs tmp d) tmp dst = fsSet fs dst d := by
  have hsrc : fsSet fs tmp d tmp = some d := fsSet_self fs tmp d
  funext n
  simp only [fsRename, hsrc]
  by_cases hn : n = tmp
  · subst hn
    simp [fsSet, hne, h]
  · by_cases hd : n = dst
    · subst hd; simp [fsSet, Ne.symm hne]
    · simp [fsSet, hn, hd]

theorem chtimes_content (fs : FS) (k : String) (t : Nat) (p : String) :
    (chtimes fs k t p).map FileData.content = (fs p).map FileData.content := by
  unfold chtimes
  cases h : fs k with
  | none => rfl
  | some d =>
    by_cases hp : p = k
    · subst hp; simp [fsSet, h]
    · simp [fsSet, hp]

/-! Case equations for downloadFilter. -/

theorem downloadFilter_eq_tmpFail (dir : String) (env : DLEnv) (f : Filter) (fs : FS)
    (ht : env.tmpOk = false) :
    downloadFilter dir env f fs = (some .tempCreate, f, fs) := by
  rw [downloadFilter, if_pos ht]

theorem downloadFilter_eq_localNone (dir : String) (env : DLEnv) (f : Filter) (fs : FS)
    (ht : env.tmpOk = true) (hab : isAbs f.URL = true) (hl : env.localChunks = none) :
    downloadFilter dir env f fs =
      (some .openFile, f, fsRemove (fsSet fs env.tmpName ⟨[], env.now⟩) env.tmpName) := by
  rw [downloadFilter, if_neg (by simp [ht]), hab, hl]
  rfl

theorem downloadFilter_eq_localSome (dir : String) (env : DLEnv) (f : Filter) (fs : FS)
    (chunks : List (List Nat))
    (ht : env.tmpOk = true) (hab : isAbs f.URL = true)
    (hl : env.localChunks = some chunks) :
    downloadFilter dir env f fs =
      dlWrite dir env f (fsSet fs env.tmpName ⟨[], env.now⟩) chunks := by
  rw [downloadFilter, if_neg (by simp [ht]), hab, hl]
  rfl

theorem downloadFilter_eq_netFail (dir : String) (env : DLEnv) (f : Filter) (fs : FS)
    (ht : env.tmpOk = true) (hab : isAbs f.URL = false) (htr : env.transport = none) :
    downloadFilter dir env f fs =
      (some .network, { f with networkError := true },
       fsRemove (fsSet fs env.tmpName ⟨[], env.now⟩) env.tmpName) := by
  rw [downloadFilter, if_neg (by simp [ht]), hab, htr]
  rfl

theorem downloadFilter_eq_netSome (dir : String) (env : DLEnv) (f : Filter) (fs : FS)
    (code : Nat) (lm : String) (chunks : List (List Nat))
    (ht : env.tmpOk = true) (hab : isAbs f.URL = false)
    (htr : env.transport = some (code, lm, chunks)) :
    downloadFilter dir env f fs =
      if code = 304 then
        (none, { f with LastUpdated := env.now, Path := "" },
         fsRemove (fsSet fs env.tmpName ⟨[], env.now⟩) env.tmpName)
      else if code ≠ 200 then
        (some (.httpStatus code), f,
         fsRemove (fsSet fs env.tmpName ⟨[], env.now⟩) env.tmpName)
      else
        dlWrite dir env { f with LastModified := lm }
          (fsSet fs env.tmpName ⟨[], env.now⟩) chunks := by
  rw [downloadFilter, if_neg (by simp [ht]), hab, htr]
  rfl

/-! Helper lemmas about downloadFilter. -/

theorem dlWrite_cases (dir : String) (env : DLEnv) (f : Filter) (fs : FS)
    (chunks : List (List Nat))
    (hfresh : fs env.tmpName = none) (hne : env.tmpName ≠ filePath dir f) :
    (∀ e, (dlWrite dir env f (fsSet fs env.tmpName ⟨[], env.now⟩) chunks).1 = some e →
      (dlWrite dir env f (fsSet fs env.tmpName ⟨[], env.now⟩) chunks).2.2 = fs) ∧
    ((dlWrite dir env f (fsSet fs env.tmpName ⟨[], env.now⟩) chunks).1 = none →
      ∃ st, writeFile env.wfail chunks = .ok st ∧
        (dlWrite dir env f (fsSet fs env.tmpName ⟨[], env.now⟩) chunks).2.2 =
          fsSet fs (filePath dir f) ⟨st.written, env.now⟩ ∧
        (dlWrite dir env f (fsSet fs env.tmpName ⟨[], env.now⟩) chunks).2.1.Path =
          filePath dir f) := by
  cases hw : writeFile env.wfail chunks with
  | error e0 =>
    constructor
    · intro e _
      simp only [dlWrite, hw]
      exact fsRemove_fsSet fs env.tmpName _ hfresh
    · intro hnone
      simp only [dlWrite, hw] at hnone
      exact absurd hnone (by simp)
  | ok st =>
    by_cases hr : env.renameOk = false
    · constructor
      · intro e _
        simp only [dlWrite, hw]
        rw [if_pos hr, fsSet_fsSet]
        exact fsRemove_fsSet fs env.tmpName _ hfresh
      · intro hnone
        simp only [dlWrite, hw] at hnone
        rw [if_pos hr] at hnone
        exact absurd hnone (by simp)
    · constructor
      · intro e he
        simp only [dlWrite, hw] at he
        rw [if_neg hr] at he
        exact absurd he (by simp)
      · intro _
        refine ⟨st, rfl, ?_, ?_⟩
        · simp only [dlWrite, hw]
          rw [if_neg hr, fsSet_fsSet]
          exact fsRename_fsSet fs env.tmpName _ _ hne hfresh
        · simp only [dlWrite, hw]
          rw [if_neg hr]
          rfl

/-- C1: downloadFilter never leaves an orphaned staging file: on every
failure (temp creation, local open, transport, HTTP status, validation,
write, rename) the directory is exactly as before the call, and the live
cache file <id>.txt changes only when the call succeeds, by renaming a
staging file whose whole content passed writeFile validation. -/
theorem downloadFilter_no_orphan (dir : String) (env : DLEnv) (f : Filter) (fs : FS)
    (hfresh : fs env.tmpName = none) (hne : env.tmpName ≠ filePath dir f) :
    (∀ e, (downloadFilter dir env f fs).1 = some e →
      (downloadFilter dir env f fs).2.2 = fs) ∧
    ((downloadFilter dir env f fs).1 = none →
      ((downloadFilter dir env f fs).2.1.Path = "" ∧
        (downloadFilter dir env f fs).2.2 = fs) ∨
      (∃ st chunks, writeFile env.wfail chunks = .ok st ∧
        (if isAbs f.URL = true then env.localChunks = some chunks
         else ∃ lm, env.transport = some (200, lm, chunks)) ∧
        (downloadFilter dir env f fs).2.2 =
          fsSet fs (filePath dir f) ⟨st.written, env.now⟩ ∧
        (downloadFilter dir env f fs).2.1.Path = filePath dir f)) := by
  by_cases ht : env.tmpOk = false
  · rw [downloadFilter_eq_tmpFail dir env f fs ht]
    exact ⟨fun e _ => rfl, fun hnone => absurd hnone (by simp)⟩
  · have ht' : env.tmpOk = true := by
      cases h : env.tmpOk
      · exact absurd h ht
      · rfl
    cases hab : isAbs f.URL with
    | true =>
      cases hl : env.localChunks with
      | none =>
        rw [downloadFilter_eq_localNone dir env f fs ht' hab hl]
        constructor
        · intro e _
          exact fsRemove_fsSet fs env.tmpName _ hfresh
        · intro hnone
          exact absurd hnone (by simp)
      | some chunks =>
        rw [downloadFilter_eq_localSome dir env f fs chunks ht' hab hl]
        have hc := dlWrite_cases dir env f fs chunks hfresh hne
        constructor
        · exact hc.1
        · intro hnone
          obtain ⟨st, hst, hfs, hpath⟩ := hc.2 hnone
          exact Or.inr ⟨st, chunks, hst, by simp [hab, hl], hfs, hpath⟩
    | false =>
      cases htr : env.transport with
      | none =>
        rw [downloadFilter_eq_netFail dir env f fs ht' hab htr]
        constructor
        · intro e _
          exact fsRemove_fsSet fs env.tmpName _ hfresh
        · intro hnone
          exact absurd hnone (by simp)
      | some trip =>
        obtain ⟨code, lm, chunks⟩ := trip
        rw [downloadFilter_eq_netSome dir env f fs code lm chunks ht' hab htr]
        by_cases h304 : code = 304
        · subst h304
          rw [if_pos rfl]
          constructor
          · intro e he
            exact absurd he (by simp)
          · intro _
            exact Or.inl ⟨rfl, fsRemove_fsSet fs env.tmpName _ hfresh⟩
        · rw [if_neg h304]
          by_cases h200 : code = 200
          · subst h200
            rw [if_neg (by simp)]
            have hne' : env.tmpName ≠ filePath dir { f with LastModified := lm } := hne
            have hc := dlWrite_cases dir env { f with LastModified := lm } fs chunks hfresh hne'
            constructor
            · exact hc.1
            · intro hnone
              obtain ⟨st, hst, hfs, hpath⟩ := hc.2 hnone
              refine Or.inr ⟨st, chunks, hst, ?_, hfs, hpath⟩
              simp only [hab, Bool.false_eq_true, if_false]
              exact ⟨lm, rfl⟩
          · rw [if_pos h200]
            constructor
            · intro e _
              exact fsRemove_fsSet fs env.tmpName _ hfresh
            · intro hnone
              exact absurd hnone (by simp)

/-- Witness for C1: a transport failure leaves the directory unchanged. -/
theorem downloadFilter_no_orphan_witness :
    (downloadFilter "d" ⟨true, "t", none, none, none, true, 5⟩
        { emptyFilter with ID := 9, URL := "u" } (fun _ => none)).2.2 = (fun _ => none) := by
  have h := downloadFilter_no_orphan "d" ⟨true, "t", none, none, none, true, 5⟩
    { emptyFilter with ID := 9, URL := "u" } (fun _ => none) rfl (by decide)
  exact h.1 .network (by decide)

/-- C6: classification of network fetch outcomes.  With the temp file
created and a non-local source: a 304 response is a success with no
staged path, lastUpdated refreshed and the caching token kept; any status
other than 200 and 304 is an HTTP-status error that does not set the
networkError flag; the networkError flag is set exactly on a
transport-level failure. -/
theorem downloadFilter_network_classification (dir : String) (env : DLEnv)
    (f : Filter) (fs : FS)
    (hlocal : isAbs f.URL = false) (htmp : env.tmpOk = true)
    (hnet : f.networkError = false) :
    (∀ lm chunks, env.transport = some (304, lm, chunks) →
      (downloadFilter dir env f fs).1 = none ∧
      (downloadFilter dir env f fs).2.1.Path = "" ∧
      (downloadFilter dir env f fs).2.1.LastUpdated = env.now ∧
      (downloadFilter dir env f fs).2.1.LastModified = f.LastModified) ∧
    (∀ code lm chunks, env.transport = some (code, lm, chunks) →
      code ≠ 200 → code ≠ 304 →
      (downloadFilter dir env f fs).1 = some (.httpStatus code) ∧
      (downloadFilter dir env f fs).2.1.networkError = false) ∧
    ((downloadFilter dir env f fs).2.1.networkError = true ↔ env.transport = none) := by
  refine ⟨?_, ?_, ?_⟩
  · intro lm chunks htr
    rw [downloadFilter_eq_netSome dir env f fs 304 lm chunks htmp hlocal htr, if_pos rfl]
    exact ⟨rfl, rfl, rfl, rfl⟩
  · intro code lm chunks htr h200 h304
    rw [downloadFilter_eq_netSome dir env f fs code lm chunks htmp hlocal htr,
      if_neg h304, if_pos h200]
    exact ⟨rfl, hnet⟩
  · cases htr : env.transport with
    | none =>
      rw [downloadFilter_eq_netFail dir env f fs htmp hlocal htr]
      simp
    | some trip =>
      obtain ⟨code, lm, chunks⟩ := trip
      rw [downloadFilter_eq_netSome dir env f fs code lm chunks htmp hlocal htr]
      simp only [reduceCtorEq, iff_false]
      by_cases h304 : code = 304
      · subst h304
        rw [if_pos rfl]
        simp [hnet]
      · rw [if_neg h304]
        by_cases h200 : code = 200
        · subst h200
          rw [if_neg (by simp)]
          cases hw : writeFile env.wfail chunks with
          | error e0 => simp [dlWrite, hw, hnet]
          | ok st =>
            by_cases hr : env.renameOk = false
            · simp [dlWrite, hw, hr, hnet]
            · simp only [dlWrite, hw]
              rw [if_neg hr]
              simp [hnet]
        · rw [if_pos h200]
          simp [hnet]

/-- Witness for C6: a 500 response yields the HTTP-status error and does
not set the networkError flag. -/
theorem downloadFilter_network_classification_witness :
    (downloadFilter "d" ⟨true, "t", none, some (500, "", [[]]), none, true, 5⟩
        { emptyFilter with ID := 9, URL := "u" } (fun _ => none)).1 =
      some (.httpStatus 500) := by
  have h := downloadFilter_network_classification "d"
    ⟨true, "t", none, some (500, "", [[]]), none, true, 5⟩
    { emptyFilter with ID := 9, URL := "u" } (fun _ => none)
    (by decide) rfl rfl
  exact (h.2.1 500 "" [[]] rfl (by decide) (by decide)).1

/-! Helper lemmas about Modify. -/

theorem modifyDownload_error (dir : String) (env : DLEnv) (backup f : Filter)
    (t : List Filter) (nid : Nat) (fs : FS) (st : Nat) (e : FErr)
    (h : (modifyDownload dir env backup f t nid fs st).err = some e) :
    (modifyDownload dir env backup f t nid fs st).list = backup :: t ∧
    (modifyDownload dir env backup f t nid fs st).st = 0 := by
  unfold modifyDownload at h ⊢
  rcases hdl : downloadFilter dir env { f with LastModified := "", RuleCount := 0 } fs
    with ⟨err, f2, fs'⟩
  cases err <;> simp [hdl] at h ⊢

theorem modifyMatch_error (dir : String) (env : DLEnv) (enabled : Bool)
    (name newURL : String) (nid : Nat) (fs : FS) (f : Filter) (t : List Filter)
    (e : FErr)
    (h : (modifyMatch dir env enabled name newURL nid fs f t).err = some e) :
    (modifyMatch dir env enabled name newURL nid fs f t).list = f :: t ∧
    (modifyMatch dir env enabled name newURL nid fs f t).st = 0 := by
  unfold modifyMatch at h ⊢
  by_cases h1 : (modifyFlags f enabled name newURL).2 &&& StatusChangedURL ≠ 0
  · rw [if_pos h1] at h ⊢
    exact modifyDownload_error _ _ _ _ _ _ _ _ e h
  · rw [if_neg h1] at h ⊢
    by_cases h2 : (modifyFlags f enabled name newURL).2 &&& StatusChangedEnabled ≠ 0 ∧
        enabled = true
    · rw [if_pos h2] at h ⊢
      cases hlook : fs (filePath dir (modifyFlags f enabled name newURL).1) with
      | none =>
        simp only [hlook] at h ⊢
        exact modifyDownload_error _ _ _ _ _ _ _ _ e h
      | some d =>
        rw [hlook] at h
        exact absurd h (by simp)
    · rw [if_neg h2] at h
      simp at h

theorem modifyLoop_error (dir : String) (env : DLEnv) (url : String) (enabled : Bool)
    (name newURL : String) (nid : Nat) (fs : FS) (l : List Filter) (e : FErr)
    (h : (modifyLoop dir env url enabled name newURL nid fs l).err = some e) :
    (modifyLoop dir env url enabled name newURL nid fs l).list = l ∧
    (modifyLoop dir env url enabled name newURL nid fs l).st = 0 := by
  induction l with
  | nil => simp [modifyLoop]
  | cons f t ih =>
    by_cases hf : (f.URL == url) = true
    · rw [modifyLoop] at h ⊢
      simp only [hf, if_true] at h ⊢
      exact modifyMatch_error _ _ _ _ _ _ _ _ _ e h
    · rw [modifyLoop] at h ⊢
      simp only [hf, Bool.false_eq_true, if_false] at h ⊢
      have := ih h
      simp [this.1, this.2]

/-- C3: if Modify returns an error, the registry list is exactly what it
was before the call (every field of the stored descriptor restored) and
the returned change-flags value is zero. -/
theorem modify_rollback_all_or_nothing (s : Stg) (fs : FS) (env : DLEnv)
    (url : String) (enabled : Bool) (name newURL : String) (e : FErr)
    (h : (Modify s fs env url enabled name newURL).err = some e) :
    (Modify s fs env url enabled name newURL).stg.list = s.list ∧
    (Modify s fs env url enabled name newURL).st = 0 := by
  unfold Modify at h ⊢
  exact modifyLoop_error s.dir env url enabled name newURL s.nextID fs s.list e h

/-- Witness for C3: a Modify whose url change hits a transport failure
rolls the one-element registry back and reports zero flags. -/
theorem modify_rollback_witness :
    (Modify ⟨"d", 24, [{ emptyFilter with Name := "a", URL := "u1", RuleCount := 7 }], 50⟩
        (fun _ => none) ⟨true, "t", none, none, none, true, 99⟩
        "u1" true "b" "u2").err = some .network ∧
    (Modify ⟨"d", 24, [{ emptyFilter with Name := "a", URL := "u1", RuleCount := 7 }], 50⟩
        (fun _ => none) ⟨true, "t", none, none, none, true, 99⟩
        "u1" true "b" "u2").stg.list =
      [{ emptyFilter with Name := "a", URL := "u1", RuleCount := 7 }] ∧
    (Modify ⟨"d", 24, [{ emptyFilter with Name := "a", URL := "u1", RuleCount := 7 }], 50⟩
        (fun _ => none) ⟨true, "t", none, none, none, true, 99⟩
        "u1" true "b" "u2").st = 0 := by
  refine ⟨by decide, ?_⟩
  have := modify_rollback_all_or_nothing
    ⟨"d", 24, [{ emptyFilter with Name := "a", URL := "u1", RuleCount := 7 }], 50⟩
    (fun _ => none) ⟨true, "t", none, none, none, true, 99⟩
    "u1" true "b" "u2" .network (by decide)
  exact this

/-- C10: applyUpdate with an empty batch returns at once: no observer
event (neither before- nor after-update), no lock acquisition, registry
list and filter directory untouched. -/
theorem applyUpdate_empty_batch_noop (dir : String) (list : List Filter) (fs : FS) :
    applyUpdate dir list fs [] = (list, fs, []) := rfl

/-! Lemmas about the printable-text check. -/

theorem isPrintableText_false_iff (c : List Nat) :
    isPrintableText c = false ↔
      ∃ b ∈ c, (b < 32 ∧ b ≠ 10 ∧ b ≠ 13 ∧ b ≠ 9) ∨ b = 127 := by
  rw [isPrintableText, List.all_eq_false]
  constructor
  · rintro ⟨b, hb, hp⟩
    refine ⟨b, hb, ?_⟩
    simp at hp
    omega
  · rintro ⟨b, hb, hp⟩
    refine ⟨b, hb, ?_⟩
    simp
    omega

theorem zero_mem_not_printable (c : List Nat) (h0 : (0 : Nat) ∈ c) :
    isPrintableText c = false := by
  rw [isPrintableText_false_iff]
  exact ⟨0, h0, Or.inl (by omega)⟩

theorem firstChunkStep_ne_nonPrintable (eof : Bool) (buf : List Nat)
    (ofc : Option (List Nat)) :
    firstChunkStep eof buf ofc ≠ .error .nonPrintable := by
  cases ofc with
  | none => simp [firstChunkStep]
  | some fc =>
    rw [firstChunkStep]
    by_cases hcap : (gatherUntil fc buf 4096).length = 4096 ∨ eof = true
    · rw [if_pos hcap]
      cases hh : isHTML (gatherUntil fc buf 4096) with
      | true => rw [if_pos rfl]; simp
      | false => rw [if_neg (by simp)]; simp
    · rw [if_neg hcap]; simp

theorem writeFileLoop_bad (wfail : Option Nat) (chunks : List (List Nat)) :
    ∀ st : WState, (∃ c ∈ chunks, (0 : Nat) ∈ c) →
      ∃ e, writeFileLoop wfail chunks st = .error e := by
  induction chunks with
  | nil =>
    intro st h
    simp at h
  | cons buf rest ih =>
    intro st h
    rw [writeFileLoop]
    cases hp : isPrintableText buf with
    | false => exact ⟨.nonPrintable, by rw [if_pos rfl]⟩
    | true =>
      rw [if_neg (by simp)]
      have h0 : ∃ c ∈ rest, (0 : Nat) ∈ c := by
        rcases h with ⟨c, hc, h0c⟩
        rcases List.mem_cons.mp hc with rfl | hcr
        · have hf := zero_mem_not_printable c h0c
          rw [hf] at hp
          exact absurd hp (by simp)
        · exact ⟨c, hcr, h0c⟩
      have hrest : rest.isEmpty = false := by
        rcases h0 with ⟨c, hc, _⟩
        cases rest
        · simp at hc
        · rfl
      dsimp only
      cases hstep : firstChunkStep rest.isEmpty buf st.firstChunk with
      | error e => exact ⟨e, rfl⟩
      | ok fc2 =>
        dsimp only
        by_cases hw : wfail = some st.writes
        · exact ⟨.ioWrite, by rw [if_pos hw]⟩
        · rw [if_neg hw]
          simp only [hrest]
          rw [if_neg (by simp)]
          exact ih _ h0

theorem writeFile_bad (wfail : Option Nat) (chunks : List (List Nat))
    (h : ∃ c ∈ chunks, (0 : Nat) ∈ c) :
    ∃ e, writeFile wfail chunks = .error e := by
  rw [writeFile]
  have hne : ¬ chunks.isEmpty = true := by
    rcases h with ⟨c, hc, _⟩
    cases chunks
    · simp at hc
    · simp
  rw [if_neg hne]
  exact writeFileLoop_bad wfail chunks _ h

theorem writeFile_single_nonPrintable (wfail : Option Nat) (c : List Nat) :
    writeFile wfail [c] = .error .nonPrintable ↔ isPrintableText c = false := by
  rw [writeFile, if_neg (by simp), writeFileLoop]
  cases hpv : isPrintableText c with
  | false =>
    rw [if_pos rfl]
    simp
  | true =>
    rw [if_neg (by simp)]
    dsimp only
    cases hstep : firstChunkStep [].isEmpty c (some []) with
    | error e =>
      have hne := firstChunkStep_ne_nonPrintable (List.isEmpty ([] : List (List Nat))) c (some [])
      rw [hstep] at hne
      simp only [ne_eq, Except.error.injEq] at hne
      simp [hne]
    | ok fc2 =>
      dsimp only
      by_cases hw : wfail = some 0
      · rw [if_pos hw]
        simp
      · rw [if_neg hw, if_pos List.isEmpty_nil]
        simp

/-- Counterexample for C5: the byte 0x80 lies outside the claimed
acceptable set {0x20-0x7E} together with LF, CR, TAB, yet writeFile accepts a
payload consisting of that byte — the code admits all bytes at or above
0x20 except 0x7F, not only up to 0x7E. -/
theorem nonprintable_byte_set_cex :
    writeFile none [[128]] = .ok ⟨1, 1, [], none, [128], 1⟩ ∧
    ¬((32 ≤ 128 ∧ (128 : Nat) ≤ 126) ∨ (128 : Nat) = 10 ∨ (128 : Nat) = 13 ∨
      (128 : Nat) = 9) := ⟨rfl, by decide⟩

/-- C5 (amended): for a payload delivered in one read, writeFile returns
the non-printable-data error exactly when some byte b satisfies
(b < 0x20 and b not LF, CR, TAB) or b = 0x7F — bytes 0x80-0xFF are
accepted.  A 0x00 byte anywhere in the stream always makes writeFile
fail with some error, and an Add downloading such content fails. -/
theorem writeFile_nonprintable_amended :
    (∀ (wfail : Option Nat) (c : List Nat),
      writeFile wfail [c] = .error .nonPrintable ↔
        ∃ b ∈ c, (b < 32 ∧ b ≠ 10 ∧ b ≠ 13 ∧ b ≠ 9) ∨ b = 127) ∧
    (∀ (wfail : Option Nat) (chunks : List (List Nat)),
      (∃ c ∈ chunks, (0 : Nat) ∈ c) → ∃ e, writeFile wfail chunks = .error e) ∧
    (∀ (s : Stg) (fs : FS) (env : DLEnv) (nf : Filter) (lm : String)
        (chunks : List (List Nat)),
      s.list.any (fun f => f.Name == nf.Name || f.URL == nf.URL) = false →
      env.tmpOk = true → isAbs nf.URL = false →
      env.transport = some (200, lm, chunks) →
      (∃ c ∈ chunks, (0 : Nat) ∈ c) →
      ∃ e, (Add s fs env nf).2.2 = some e) := by
  refine ⟨?_, ?_, ?_⟩
  · intro wfail c
    rw [writeFile_single_nonPrintable, isPrintableText_false_iff]
  · exact writeFile_bad
  · intro s fs env nf lm chunks hdup htmp hab htr hbad
    obtain ⟨e, he⟩ := writeFile_bad env.wfail chunks hbad
    refine ⟨e, ?_⟩
    rw [Add, if_neg (by simp [hdup])]
    dsimp only
    rw [downloadFilter_eq_netSome s.dir env
      { nf with ID := s.nextID + 1, Enabled := true } fs 200 lm chunks htmp hab htr]
    rw [if_neg (by decide), if_neg (by simp)]
    simp only [dlWrite, he]

/-- Witness for C5 (amended): a lone 0x00 byte is rejected as
non-printable; a 0x00 in a later chunk still fails the stream; an Add
fetching a body with a 0x00 byte returns an error. -/
theorem writeFile_nonprintable_witness :
    writeFile none [[0]] = .error .nonPrintable ∧
    (∃ e, writeFile none [[97, 10], [0]] = .error e) ∧
    (∃ e, (Add ⟨"d", 24, [], 7⟩ (fun _ => none)
        ⟨true, "t", none, some (200, "", [[0]]), none, true, 3⟩
        { emptyFilter with Name := "n", URL := "u" }).2.2 = some e) := by
  refine ⟨?_, ?_, ?_⟩
  · exact (writeFile_nonprintable_amended.1 none [0]).mpr ⟨0, by decide, by decide⟩
  · exact writeFile_nonprintable_amended.2.1 none _ ⟨[0], by decide, by decide⟩
  · exact writeFile_nonprintable_amended.2.2 ⟨"d", 24, [], 7⟩ (fun _ => none)
      ⟨true, "t", none, some (200, "", [[0]]), none, true, 3⟩
      { emptyFilter with Name := "n", URL := "u" } "" [[0]]
      (by decide) rfl (by decide) rfl ⟨[0], by decide, by decide⟩

/-! Computation lemmas for the Modify branches. -/

theorem modifyFlags_enable (f : Filter) (name : String) (hE : f.Enabled = false) :
    modifyFlags f true name f.URL =
      ({ f with Name := name, Enabled := true }, StatusChangedEnabled) := by
  simp [modifyFlags, hE]

theorem modifyFlags_true_true (f : Filter) (name : String) (hE : f.Enabled = true) :
    modifyFlags f true name f.URL = ({ f with Name := name }, 0) := by
  simp [modifyFlags, hE]

theorem modifyDownload_didDownload (dir : String) (env : DLEnv) (backup f : Filter)
    (t : List Filter) (nid : Nat) (fs : FS) (st : Nat) :
    (modifyDownload dir env backup f t nid fs st).didDownload = true := by
  unfold modifyDownload
  rcases hdl : downloadFilter dir env { f with LastModified := "", RuleCount := 0 } fs
    with ⟨err, f2, fs2⟩
  cases err <;> simp [hdl]

theorem modifyMatch_enable_readable (dir : String) (env : DLEnv) (name : String)
    (f : Filter) (t : List Filter) (nid : Nat) (fs : FS) (d : FileData)
    (hE : f.Enabled = false) (hd : fs (filePath dir f) = some d) :
    modifyMatch dir env true name f.URL nid fs f t =
      ⟨{ f with
          Name := name
          Enabled := true
          RuleCount := parseFilter d.content } :: t,
       nid, fs, StatusChangedEnabled, f, none, false⟩ := by
  rw [modifyMatch, modifyFlags_enable f name hE]
  dsimp only
  rw [if_neg (by decide), if_pos ⟨by decide, rfl⟩]
  have hfp : filePath dir ({ f with Name := name, Enabled := true } : Filter) =
      filePath dir f := rfl
  rw [hfp, hd]

theorem modifyMatch_enable_unreadable (dir : String) (env : DLEnv) (name : String)
    (f : Filter) (t : List Filter) (nid : Nat) (fs : FS)
    (hE : f.Enabled = false) (hd : fs (filePath dir f) = none) :
    (modifyMatch dir env true name f.URL nid fs f t).didDownload = true := by
  rw [modifyMatch, modifyFlags_enable f name hE]
  dsimp only
  rw [if_neg (by decide), if_pos ⟨by decide, rfl⟩]
  have hfp : filePath dir ({ f with Name := name, Enabled := true } : Filter) =
      filePath dir f := rfl
  rw [hfp, hd]
  exact modifyDownload_didDownload _ _ _ _ _ _ _ _

theorem modifyDownload_err_eq (dir : String) (env : DLEnv) (backup f : Filter)
    (t : List Filter) (nid : Nat) (fs : FS) (st : Nat) :
    (modifyDownload dir env backup f t nid fs st).err =
      (downloadFilter dir env { f with LastModified := "", RuleCount := 0 } fs).1 := by
  unfold modifyDownload
  rcases hdl : downloadFilter dir env { f with LastModified := "", RuleCount := 0 } fs
    with ⟨err, f2, fs2⟩
  cases err <;> simp [hdl]

theorem modifyMatch_enable_unreadable_eq (dir : String) (env : DLEnv) (name : String)
    (f : Filter) (t : List Filter) (nid : Nat) (fs : FS)
    (hE : f.Enabled = false) (hd : fs (filePath dir f) = none) :
    modifyMatch dir env true name f.URL nid fs f t =
      modifyDownload dir env f { f with Name := name, Enabled := true } t nid fs
        StatusChangedEnabled := by
  rw [modifyMatch, modifyFlags_enable f name hE]
  dsimp only
  rw [if_neg (by decide), if_pos ⟨by decide, rfl⟩]
  have hfp : filePath dir ({ f with Name := name, Enabled := true } : Filter) =
      filePath dir f := rfl
  rw [hfp, hd]

theorem modifyMatch_true_true (dir : String) (env : DLEnv) (name : String)
    (f : Filter) (t : List Filter) (nid : Nat) (fs : FS) (hE : f.Enabled = true) :
    modifyMatch dir env true name f.URL nid fs f t =
      ⟨{ f with Name := name } :: t, nid, fs, 0, f, none, false⟩ := by
  rw [modifyMatch, modifyFlags_true_true f name hE]
  dsimp only
  rw [if_neg (by decide), if_neg (by decide)]

theorem modifyLoop_skip (dir : String) (env : DLEnv) (url : String) (enabled : Bool)
    (name newURL : String) (nid : Nat) (fs : FS) (pre l : List Filter)
    (hpre : ∀ g ∈ pre, (g.URL == url) = false) :
    modifyLoop dir env url enabled name newURL nid fs (pre ++ l) =
      { modifyLoop dir env url enabled name newURL nid fs l with
        list := pre ++ (modifyLoop dir env url enabled name newURL nid fs l).list } := by
  induction pre with
  | nil => rfl
  | cons g pre ih =>
    rw [List.cons_append, modifyLoop]
    rw [hpre g (List.mem_cons_self g pre), if_neg (by simp)]
    rw [ih (fun x hx => hpre x (List.mem_cons_of_mem g hx))]
    rfl

/-- Counterexample for C9: a Modify with enabled already true (true to
true, url unchanged) does not recompute ruleCount from the cache file:
the stored count 5 is kept although the file content has 1 rule, and no
reparse or fetch happens. -/
theorem modify_true_true_no_reparse_cex :
    (Modify ⟨"d", 24,
        [{ emptyFilter with Name := "a", URL := "u", Enabled := true, RuleCount := 5 }],
        50⟩
      (fsSet (fun _ => none) "d/0.txt" ⟨[97, 10], 0⟩)
      ⟨true, "t", none, none, none, true, 0⟩ "u" true "a" "u").stg.list =
      [{ emptyFilter with Name := "a", URL := "u", Enabled := true, RuleCount := 5 }] ∧
    (Modify ⟨"d", 24,
        [{ emptyFilter with Name := "a", URL := "u", Enabled := true, RuleCount := 5 }],
        50⟩
      (fsSet (fun _ => none) "d/0.txt" ⟨[97, 10], 0⟩)
      ⟨true, "t", none, none, none, true, 0⟩ "u" true "a" "u").didDownload = false ∧
    parseFilter [97, 10] = 1 := by
  refine ⟨by decide, by decide, by decide⟩

/-- C9 (amended): with url unchanged, Modify fetches nothing when the
enabled state allows a local reparse: turning enabled on (false to true)
with a readable cache file recomputes ruleCount by reparsing that file
with no download; with an unreadable file it falls back to a full
re-download — its outcome is that of downloadFilter on the descriptor
with LastModified and RuleCount cleared; and a Modify passing
enabled = true for an already-enabled filter (true to true) performs
neither a fetch nor a reparse — every field except the name, ruleCount
included, stays as stored. -/
theorem modify_enable_reparse_amended (s : Stg) (fs : FS) (env : DLEnv) (name : String)
    (pre t : List Filter) (f : Filter)
    (hsplit : s.list = pre ++ f :: t)
    (hpre : ∀ g ∈ pre, (g.URL == f.URL) = false) :
    (f.Enabled = false → ∀ d, fs (filePath s.dir f) = some d →
      (Modify s fs env f.URL true name f.URL).didDownload = false ∧
      (Modify s fs env f.URL true name f.URL).err = none ∧
      (Modify s fs env f.URL true name f.URL).stg.list =
        pre ++
          { f with
              Name := name
              Enabled := true
              RuleCount := parseFilter d.content } :: t) ∧
    (f.Enabled = false → fs (filePath s.dir f) = none →
      (Modify s fs env f.URL true name f.URL).didDownload = true ∧
      (Modify s fs env f.URL true name f.URL).err =
        (downloadFilter s.dir env
          { f with
              Name := name
              Enabled := true
              LastModified := ""
              RuleCount := 0 } fs).1) ∧
    (f.Enabled = true →
      (Modify s fs env f.URL true name f.URL).didDownload = false ∧
      (Modify s fs env f.URL true name f.URL).err = none ∧
      (Modify s fs env f.URL true name f.URL).st = 0 ∧
      (Modify s fs env f.URL true name f.URL).stg.list =
        pre ++ { f with Name := name } :: t) := by
  refine ⟨?_, ?_, ?_⟩
  · intro hE d hd
    have hloop : modifyLoop s.dir env f.URL true name f.URL s.nextID fs s.list =
        { modifyMatch s.dir env true name f.URL s.nextID fs f t with
          list := pre ++ (modifyMatch s.dir env true name f.URL s.nextID fs f t).list } := by
      rw [hsplit, modifyLoop_skip s.dir env f.URL true name f.URL s.nextID fs pre
        (f :: t) hpre, modifyLoop, if_pos (by simp)]
    rw [Modify] at *
    rw [hloop, modifyMatch_enable_readable s.dir env name f t s.nextID fs d hE hd]
    exact ⟨rfl, rfl, rfl⟩
  · intro hE hd
    have hloop : modifyLoop s.dir env f.URL true name f.URL s.nextID fs s.list =
        { modifyMatch s.dir env true name f.URL s.nextID fs f t with
          list := pre ++ (modifyMatch s.dir env true name f.URL s.nextID fs f t).list } := by
      rw [hsplit, modifyLoop_skip s.dir env f.URL true name f.URL s.nextID fs pre
        (f :: t) hpre, modifyLoop, if_pos (by simp)]
    rw [Modify, hloop, modifyMatch_enable_unreadable_eq s.dir env name f t s.nextID fs hE hd]
    refine ⟨?_, ?_⟩
    · exact modifyDownload_didDownload s.dir env f { f with Name := name, Enabled := true }
        t s.nextID fs StatusChangedEnabled
    · exact modifyDownload_err_eq s.dir env f { f with Name := name, Enabled := true }
        t s.nextID fs StatusChangedEnabled
  · intro hE
    have hloop : modifyLoop s.dir env f.URL true name f.URL s.nextID fs s.list =
        { modifyMatch s.dir env true name f.URL s.nextID fs f t with
          list := pre ++ (modifyMatch s.dir env true name f.URL s.nextID fs f t).list } := by
      rw [hsplit, modifyLoop_skip s.dir env f.URL true name f.URL s.nextID fs pre
        (f :: t) hpre, modifyLoop, if_pos (by simp)]
    rw [Modify, hloop, modifyMatch_true_true s.dir env name f t s.nextID fs hE]
    exact ⟨rfl, rfl, rfl, rfl⟩

/-- Witness for C9 (amended): concrete false-to-true Modify with a
readable one-rule cache file reparses without fetching; with the file
missing it attempts a real fetch (here failing at the transport level);
concrete true-to-true Modify leaves the stored count. -/
theorem modify_enable_reparse_witness :
    ((Modify ⟨"d", 24,
        [{ emptyFilter with Name := "a", URL := "u", RuleCount := 9 }], 50⟩
      (fsSet (fun _ => none) "d/0.txt" ⟨[97, 10], 0⟩)
      ⟨true, "t", none, none, none, true, 0⟩ "u" true "n" "u").didDownload = false ∧
     (Modify ⟨"d", 24,
        [{ emptyFilter with Name := "a", URL := "u", RuleCount := 9 }], 50⟩
      (fsSet (fun _ => none) "d/0.txt" ⟨[97, 10], 0⟩)
      ⟨true, "t", none, none, none, true, 0⟩ "u" true "n" "u").err = none ∧
     (Modify ⟨"d", 24,
        [{ emptyFilter with Name := "a", URL := "u", RuleCount := 9 }], 50⟩
      (fsSet (fun _ => none) "d/0.txt" ⟨[97, 10], 0⟩)
      ⟨true, "t", none, none, none, true, 0⟩ "u" true "n" "u").stg.list =
       [] ++
         { emptyFilter with
             Name := "n"
             URL := "u"
             Enabled := true
             RuleCount := parseFilter ([97, 10] : List Nat) } :: []) ∧
    ((Modify ⟨"d", 24,
        [{ emptyFilter with Name := "a", URL := "u", RuleCount := 9 }], 50⟩
      (fun _ => none)
      ⟨true, "t", none, none, none, true, 0⟩ "u" true "n" "u").didDownload = true ∧
     (Modify ⟨"d", 24,
        [{ emptyFilter with Name := "a", URL := "u", RuleCount := 9 }], 50⟩
      (fun _ => none)
      ⟨true, "t", none, none, none, true, 0⟩ "u" true "n" "u").err =
        some FErr.network) ∧
    (Modify ⟨"d", 24,
        [{ emptyFilter with Name := "a", URL := "u", Enabled := true, RuleCount := 9 }],
        50⟩
      (fun _ => none)
      ⟨true, "t", none, none, none, true, 0⟩ "u" true "n" "u").st = 0 := by
  refine ⟨?_, ?_, ?_⟩
  · exact (modify_enable_reparse_amended
      ⟨"d", 24, [{ emptyFilter with Name := "a", URL := "u", RuleCount := 9 }], 50⟩
      (fsSet (fun _ => none) "d/0.txt" ⟨[97, 10], 0⟩)
      ⟨true, "t", none, none, none, true, 0⟩ "n" [] []
      { emptyFilter with Name := "a", URL := "u", RuleCount := 9 }
      rfl (by simp)).1 rfl ⟨[97, 10], 0⟩ (by decide)
  · have h2 := (modify_enable_reparse_amended
      ⟨"d", 24, [{ emptyFilter with Name := "a", URL := "u", RuleCount := 9 }], 50⟩
      (fun _ => none)
      ⟨true, "t", none, none, none, true, 0⟩ "n" [] []
      { emptyFilter with Name := "a", URL := "u", RuleCount := 9 }
      rfl (by simp)).2.1 rfl rfl
    exact ⟨h2.1, h2.2.trans (by decide)⟩
  · exact ((modify_enable_reparse_amended
      ⟨"d", 24,
        [{ emptyFilter with Name := "a", URL := "u", Enabled := true, RuleCount := 9 }],
        50⟩
      (fun _ => none)
      ⟨true, "t", none, none, none, true, 0⟩ "n" [] []
      { emptyFilter with Name := "a", URL := "u", Enabled := true, RuleCount := 9 }
      rfl (by simp)).2.2 rfl).2.2.1

/-! Lemmas about the apply phase. -/

theorem applyOne_none (dir : String) (uf : Filter) :
    ∀ (l : List Filter) (fs : FS),
      (∀ g ∈ l, (uf.URL == g.URL) = false) →
      applyOne dir uf l fs = (l, fs, false) := by
  intro l
  induction l with
  | nil => intro fs _; rfl
  | cons f t ih =>
    intro fs h
    rw [applyOne, if_neg (by simp [h f (List.mem_cons_self f t)])]
    rw [ih fs (fun x hx => h x (List.mem_cons_of_mem f hx))]

theorem applyOne_skip (dir : String) (uf : Filter) (pre : List Filter) :
    ∀ (l : List Filter) (fs : FS),
      (∀ g ∈ pre, (uf.URL == g.URL) = false) →
      applyOne dir uf (pre ++ l) fs =
        (pre ++ (applyOne dir uf l fs).1, (applyOne dir uf l fs).2.1,
         (applyOne dir uf l fs).2.2) := by
  induction pre with
  | nil => intro l fs _; rfl
  | cons g pre ih =>
    intro l fs h
    rw [List.cons_append, applyOne,
      if_neg (by simp [h g (List.mem_cons_self g pre)])]
    rw [ih l fs (fun x hx => h x (List.mem_cons_of_mem g hx))]
    rfl

theorem applyOne_found_empty (dir : String) (uf f : Filter) (t : List Filter) (fs : FS)
    (hm : (uf.URL == f.URL) = true) (hP : (uf.Path == "") = true)
    (hpost : ∀ g ∈ t, (uf.URL == g.URL) = false) :
    applyOne dir uf (f :: t) fs =
      ({ f with LastUpdated := uf.LastUpdated } :: t,
       chtimes fs (filePath dir f) uf.LastUpdated, true) := by
  rw [applyOne, if_pos hm, if_pos hP]
  dsimp only
  rw [applyOne_none dir uf t _ hpost]

theorem applyOne_found_staged (dir : String) (uf f : Filter) (t : List Filter) (fs : FS)
    (hm : (uf.URL == f.URL) = true) (hP : (uf.Path == "") = false) :
    applyOne dir uf (f :: t) fs =
      ({ f with LastUpdated := uf.LastUpdated, RuleCount := uf.RuleCount } :: t,
       fsRename fs uf.Path (filePath dir f), true) := by
  rw [applyOne, if_pos hm, if_neg (by simp [hP])]

/-- C7: commit semantics of one batch entry.  The live descriptor is
located by url: a matching entry with an empty staged path only gets its
lastUpdated refreshed and the live file's modification time set (the file
bytes and ruleCount stay); a matching entry with a staged path has the
staged file renamed over the live cache file and ruleCount and
lastUpdated updated; an entry whose url is no longer live has its staged
file removed and the registry left unchanged.  In every case the live
descriptor's id, name, url and enabled flag are unchanged (the record
updates below touch only LastUpdated and RuleCount). -/
theorem applyUpdate_entry_semantics (dir : String) (list : List Filter) (fs : FS)
    (f : Filter) (pre post : List Filter) (uf ufs : Filter)
    (hsplit : list = pre ++ f :: post)
    (hpre : ∀ g ∈ pre, (uf.URL == g.URL) = false)
    (hpost : ∀ g ∈ post, (uf.URL == g.URL) = false)
    (hmatch : (uf.URL == f.URL) = true)
    (hP : uf.Path = "")
    (hpres : ∀ g ∈ pre, (ufs.URL == g.URL) = false)
    (hmatchs : (ufs.URL == f.URL) = true)
    (hPs : ufs.Path ≠ "") :
    (applyUpdate dir list fs [uf] =
      (pre ++ { f with LastUpdated := uf.LastUpdated } :: post,
       chtimes fs (filePath dir f) uf.LastUpdated,
       [.beforeUpdate, .lockAcquired, .afterUpdate])) ∧
    (∀ p, ((chtimes fs (filePath dir f) uf.LastUpdated) p).map FileData.content =
      (fs p).map FileData.content) ∧
    (applyUpdate dir list fs [ufs] =
      (pre ++ { f with LastUpdated := ufs.LastUpdated, RuleCount := ufs.RuleCount }
         :: post,
       fsRename fs ufs.Path (filePath dir f),
       [.beforeUpdate, .lockAcquired, .afterUpdate])) ∧
    (∀ (l2 : List Filter) (fs2 : FS) (u2 : Filter),
      (∀ g ∈ l2, (u2.URL == g.URL) = false) →
      applyUpdate dir l2 fs2 [u2] =
        (l2, fsRemove fs2 (filePath dir u2),
         [.beforeUpdate, .lockAcquired, .afterUpdate])) := by
  refine ⟨?_, ?_, ?_, ?_⟩
  · rw [applyUpdate, if_neg (by simp), hsplit]
    rw [show applyLoop dir (pre ++ f :: post) fs [uf] =
        applyLoop dir (applyOne dir uf (pre ++ f :: post) fs).1
          (if (applyOne dir uf (pre ++ f :: post) fs).2.2
           then (applyOne dir uf (pre ++ f :: post) fs).2.1
           else fsRemove (applyOne dir uf (pre ++ f :: post) fs).2.1
             (filePath dir uf)) [] from rfl]
    rw [applyOne_skip dir uf pre (f :: post) fs hpre,
      applyOne_found_empty dir uf f post fs hmatch (by simp [hP]) hpost]
    rfl
  · exact fun p => chtimes_content fs (filePath dir f) uf.LastUpdated p
  · rw [applyUpdate, if_neg (by simp), hsplit]
    rw [show applyLoop dir (pre ++ f :: post) fs [ufs] =
        applyLoop dir (applyOne dir ufs (pre ++ f :: post) fs).1
          (if (applyOne dir ufs (pre ++ f :: post) fs).2.2
           then (applyOne dir ufs (pre ++ f :: post) fs).2.1
           else fsRemove (applyOne dir ufs (pre ++ f :: post) fs).2.1
             (filePath dir ufs)) [] from rfl]
    rw [applyOne_skip dir ufs pre (f :: post) fs hpres,
      applyOne_found_staged dir ufs f post fs hmatchs (by simp [hPs])]
    rfl
  · intro l2 fs2 u2 h2
    rw [applyUpdate, if_neg (by simp)]
    rw [show applyLoop dir l2 fs2 [u2] =
        applyLoop dir (applyOne dir u2 l2 fs2).1
          (if (applyOne dir u2 l2 fs2).2.2
           then (applyOne dir u2 l2 fs2).2.1
           else fsRemove (applyOne dir u2 l2 fs2).2.1 (filePath dir u2)) []
        from rfl]
    rw [applyOne_none dir u2 l2 fs2 h2]
    rfl

/-- Witness for C7: concrete one-entry batches against a two-filter
registry exercise the not-modified, staged and deleted cases. -/
theorem applyUpdate_entry_witness :
    (applyUpdate "d"
      [{ emptyFilter with ID := 1, URL := "u" },
       { emptyFilter with ID := 2, URL := "v" }]
      (fun _ => none)
      [{ emptyFilter with ID := 9, URL := "u", LastUpdated := 44, Path := "" }] =
      ([{ emptyFilter with ID := 1, URL := "u", LastUpdated := 44 },
        { emptyFilter with ID := 2, URL := "v" }],
       chtimes (fun _ => none) (filePath "d" { emptyFilter with ID := 1, URL := "u" }) 44,
       [.beforeUpdate, .lockAcquired, .afterUpdate])) ∧
    (applyUpdate "d"
      [{ emptyFilter with ID := 1, URL := "u" },
       { emptyFilter with ID := 2, URL := "v" }]
      (fun _ => none)
      [{ emptyFilter with ID := 9, URL := "w", Path := "d/9.txt" }] =
      ([{ emptyFilter with ID := 1, URL := "u" },
        { emptyFilter with ID := 2, URL := "v" }],
       fsRemove (fun _ => none)
         (filePath "d" { emptyFilter with ID := 9, URL := "w", Path := "d/9.txt" }),
       [.beforeUpdate, .lockAcquired, .afterUpdate])) := by
  constructor
  · exact (applyUpdate_entry_semantics "d"
      [{ emptyFilter with ID := 1, URL := "u" },
       { emptyFilter with ID := 2, URL := "v" }]
      (fun _ => none)
      { emptyFilter with ID := 1, URL := "u" } []
      [{ emptyFilter with ID := 2, URL := "v" }]
      { emptyFilter with ID := 9, URL := "u", LastUpdated := 44, Path := "" }
      { emptyFilter with ID := 9, URL := "u", Path := "d/9.txt" }
      rfl (by simp) (by decide) (by decide) rfl (by simp) (by decide)
      (by decide)).1
  · exact (applyUpdate_entry_semantics "d"
      [{ emptyFilter with ID := 1, URL := "u" },
       { emptyFilter with ID := 2, URL := "v" }]
      (fun _ => none)
      { emptyFilter with ID := 1, URL := "u" } []
      [{ emptyFilter with ID := 2, URL := "v" }]
      { emptyFilter with ID := 9, URL := "u", LastUpdated := 44, Path := "" }
      { emptyFilter with ID := 9, URL := "u", Path := "d/9.txt" }
      rfl (by simp) (by decide) (by decide) rfl (by simp) (by decide)
      (by decide)).2.2.2
      [{ emptyFilter with ID := 1, URL := "u" },
       { emptyFilter with ID := 2, URL := "v" }]
      (fun _ => none)
      { emptyFilter with ID := 9, URL := "w", Path := "d/9.txt" }
      (by decide)

/-! Lemmas about byte search and line splitting, towards the rule-count
refinement. -/

theorem idxOfByte_eq_none {s : List Nat} {b : Nat} :
    idxOfByte s b = none ↔ b ∉ s := by
  induction s with
  | nil => simp [idxOfByte]
  | cons c t ih =>
    rw [idxOfByte]
    by_cases hc : c = b
    · subst hc
      simp
    · simp [hc, Option.map_eq_none', ih, Ne.symm hc]

theorem idxOfByte_eq_some {s : List Nat} {b : Nat} :
    ∀ {i : Nat}, idxOfByte s b = some i →
      b ∉ s.take i ∧ s = s.take i ++ b :: s.drop (i + 1) := by
  induction s with
  | nil => intro i h; simp [idxOfByte] at h
  | cons c t ih =>
    intro i h
    rw [idxOfByte] at h
    by_cases hc : c = b
    · subst hc
      rw [if_pos rfl] at h
      injection h with h
      subst h
      simp
    · rw [if_neg hc] at h
      cases hj : idxOfByte t b with
      | none => rw [hj] at h; simp at h
      | some j =>
        rw [hj] at h
        simp only [Option.map_some'] at h
        injection h with h
        subst h
        obtain ⟨h1, h2⟩ := ih hj
        constructor
        · rw [List.take_succ_cons]
          simp only [List.mem_cons]
          rintro (rfl | hmem)
          · exact hc rfl
          · exact h1 hmem
        · rw [List.take_succ_cons, List.drop_succ_cons, List.cons_append]
          exact congrArg (c :: ·) h2

theorem idxOfByte_cons_none {c : Nat} {t : List Nat} {b : Nat}
    (h : idxOfByte (c :: t) b = none) : c ≠ b ∧ idxOfByte t b = none := by
  have hm := idxOfByte_eq_none.mp h
  simp only [List.mem_cons, not_or] at hm
  exact ⟨fun hcb => hm.1 hcb.symm, idxOfByte_eq_none.mpr hm.2⟩

theorem splitOnByte_ne_nil (s : List Nat) : splitOnByte s ≠ [] := by
  induction s with
  | nil => simp [splitOnByte]
  | cons c t ih =>
    rw [splitOnByte]
    by_cases hc : c = 10
    · simp [hc]
    · rw [if_neg hc]
      cases hsp : splitOnByte t with
      | nil => exact absurd hsp ih
      | cons h2 t2 => simp

theorem splitOnByte_no_nl {s : List Nat} (h : idxOfByte s 10 = none) :
    splitOnByte s = [s] := by
  induction s with
  | nil => rfl
  | cons c t ih =>
    obtain ⟨hc, ht⟩ := idxOfByte_cons_none h
    rw [splitOnByte, if_neg hc, ih ht]

theorem splitOnByte_append_nl {a : List Nat} (z : List Nat)
    (h : idxOfByte a 10 = none) :
    splitOnByte (a ++ 10 :: z) = a :: splitOnByte z := by
  induction a with
  | nil =>
    rw [List.nil_append, splitOnByte, if_pos rfl]
  | cons c a ih =>
    obtain ⟨hc, ha⟩ := idxOfByte_cons_none h
    rw [List.cons_append, splitOnByte, if_neg hc, ih ha]

theorem specRuleCount_nil : specRuleCount [] = 0 := rfl

theorem specRuleCount_no_nl {s : List Nat} (h : idxOfByte s 10 = none) :
    specRuleCount s = if skipLine (trimSpace s) then 0 else 1 := by
  rw [specRuleCount, splitOnByte_no_nl h]
  cases hsk : skipLine (trimSpace s) <;> simp [List.countP_cons, hsk]

theorem specRuleCount_cons_nl (a z : List Nat) (h : idxOfByte a 10 = none) :
    specRuleCount (a ++ 10 :: z) =
      (if skipLine (trimSpace a) then 0 else 1) + specRuleCount z := by
  rw [specRuleCount, splitOnByte_append_nl z h, List.map_cons, List.countP_cons,
    specRuleCount]
  cases hsk : skipLine (trimSpace a) <;> simp [hsk] <;> omega

theorem countLoopF_true (fuel : Nat) : ∀ (s c : List Nat) (rc : Nat),
    s.length < fuel →
    (countLoopF true fuel c s rc).2 = rc + specRuleCount s := by
  induction fuel with
  | zero => intro s c rc h; exact absurd h (Nat.not_lt_zero _)
  | succ fuel ih =>
    intro s c rc h
    rw [countLoopF]
    by_cases hs : s = []
    · subst hs
      rw [if_pos rfl, specRuleCount_nil]
      rfl
    · rw [if_neg hs]
      have hpos : 1 ≤ s.length := List.length_pos.mpr hs
      cases hix : idxOfByte s 10 with
      | none =>
        have hsp : splitNext s 10 = (none, trimSpace s, []) := by
          rw [splitNext, hix]
        rw [hsp]
        dsimp only
        rw [if_neg (by simp)]
        rw [ih [] [] _ (by simp; omega)]
        rw [specRuleCount_no_nl hix, specRuleCount_nil]
        cases hsk : skipLine (trimSpace s) <;> simp [hsk]
      | some i =>
        have hsp : splitNext s 10 = (some i, trimSpace (s.take i), s.drop (i + 1)) := by
          rw [splitNext, hix]
        rw [hsp]
        dsimp only
        rw [if_neg (by simp)]
        have hlen : (s.drop (i + 1)).length < fuel := by
          rw [List.length_drop]
          omega
        rw [ih _ _ _ hlen]
        obtain ⟨hnotin, hdecomp⟩ := idxOfByte_eq_some hix
        have htk : idxOfByte (s.take i) 10 = none := idxOfByte_eq_none.mpr hnotin
        conv_rhs => rw [hdecomp]
        rw [specRuleCount_cons_nl _ _ htk]
        cases hsk : skipLine (trimSpace (s.take i)) <;> simp [hsk] <;> omega

theorem countLoopF_false (fuel : Nat) : ∀ (s : List Nat) (rc : Nat),
    s.length < fuel →
    ∃ c' k, countLoopF false fuel s s rc = (c', rc + k) ∧
      idxOfByte c' 10 = none ∧
      ∀ X, specRuleCount (s ++ X) = k + specRuleCount (c' ++ X) := by
  induction fuel with
  | zero => intro s rc h; exact absurd h (Nat.not_lt_zero _)
  | succ fuel ih =>
    intro s rc h
    rw [countLoopF]
    by_cases hs : s = []
    · subst hs
      rw [if_pos rfl]
      exact ⟨[], 0, by simp, rfl, fun X => by simp⟩
    · rw [if_neg hs]
      have hpos : 1 ≤ s.length := List.length_pos.mpr hs
      cases hix : idxOfByte s 10 with
      | none =>
        have hsp : splitNext s 10 = (none, trimSpace s, []) := by
          rw [splitNext, hix]
        rw [hsp]
        dsimp only
        rw [if_pos ⟨rfl, rfl⟩]
        exact ⟨s, 0, by simp, hix, fun X => by simp⟩
      | some i =>
        have hsp : splitNext s 10 = (some i, trimSpace (s.take i), s.drop (i + 1)) := by
          rw [splitNext, hix]
        rw [hsp]
        dsimp only
        rw [if_neg (by simp)]
        have hlen : (s.drop (i + 1)).length < fuel := by
          rw [List.length_drop]
          omega
        obtain ⟨c', k', hcl, hnl, hXf⟩ :=
          ih (s.drop (i + 1)) (if skipLine (trimSpace (s.take i)) then rc else rc + 1)
            hlen
        obtain ⟨hnotin, hdecomp⟩ := idxOfByte_eq_some hix
        have htk : idxOfByte (s.take i) 10 = none := idxOfByte_eq_none.mpr hnotin
        refine ⟨c', (if skipLine (trimSpace (s.take i)) then 0 else 1) + k', ?_, hnl, ?_⟩
        · rw [hcl]
          cases hsk : skipLine (trimSpace (s.take i)) <;> simp [hsk] <;> omega
        · intro X
          conv_lhs => rw [hdecomp]
          rw [List.append_assoc, List.cons_append, specRuleCount_cons_nl _ _ htk,
            hXf X]
          omega

theorem writeFileLoop_count (wfail : Option Nat) :
    ∀ (chunks : List (List Nat)) (st st' : WState),
      idxOfByte st.carry 10 = none →
      writeFileLoop wfail chunks st = .ok st' →
      chunks ≠ [] →
      st'.ruleCount = st.ruleCount + specRuleCount (st.carry ++ chunks.join) := by
  intro chunks
  induction chunks with
  | nil => intro st st' _ _ hne; exact absurd rfl hne
  | cons buf rest ih =>
    intro st st' hcar heq _
    rw [writeFileLoop] at heq
    by_cases hp : isPrintableText buf = false
    · rw [if_pos hp] at heq
      exact absurd heq (by simp)
    · rw [if_neg hp] at heq
      dsimp only at heq
      cases hstep : firstChunkStep rest.isEmpty buf st.firstChunk with
      | error e =>
        rw [hstep] at heq
        exact absurd heq (by simp)
      | ok fc2 =>
        rw [hstep] at heq
        dsimp only at heq
        by_cases hw : wfail = some st.writes
        · rw [if_pos hw] at heq
          exact absurd heq (by simp)
        · rw [if_neg hw] at heq
          cases rest with
          | nil =>
            rw [if_pos List.isEmpty_nil] at heq
            injection heq with heq2
            subst heq2
            dsimp only
            have hc := countLoopF_true ((st.carry ++ buf).length + 1)
              (st.carry ++ buf) (st.carry ++ buf) st.ruleCount (by omega)
            rw [show countLoop (List.isEmpty ([] : List (List Nat)))
              (st.carry ++ buf) (st.carry ++ buf) st.ruleCount =
              countLoopF true ((st.carry ++ buf).length + 1)
                (st.carry ++ buf) (st.carry ++ buf) st.ruleCount from rfl]
            rw [hc]
            simp
          | cons b2 rest2 =>
            rw [if_neg (by simp)] at heq
            obtain ⟨c', k, hcl, hnl, hXf⟩ :=
              countLoopF_false ((st.carry ++ buf).length + 1) (st.carry ++ buf)
                st.ruleCount (by omega)
            rw [show countLoop (b2 :: rest2).isEmpty
              (st.carry ++ buf) (st.carry ++ buf) st.ruleCount =
              countLoopF false ((st.carry ++ buf).length + 1)
                (st.carry ++ buf) (st.carry ++ buf) st.ruleCount from rfl,
              hcl] at heq
            have hres := ih _ st' (by exact hnl) heq (by simp)
            dsimp only at hres
            rw [hres]
            have hX := hXf (b2 :: rest2).join
            have hj : st.carry ++ (buf :: b2 :: rest2).join =
                st.carry ++ buf ++ (b2 :: rest2).join := by
              rw [show (buf :: b2 :: rest2).join = buf ++ (b2 :: rest2).join from rfl,
                List.append_assoc]
            rw [hj]
            omega

theorem writeFile_count (wfail : Option Nat) (chunks : List (List Nat))
    (st' : WState) (hne : chunks ≠ [])
    (heq : writeFile wfail chunks = .ok st') :
    st'.ruleCount = specRuleCount chunks.join := by
  rw [writeFile, if_neg (by simp [hne])] at heq
  have := writeFileLoop_count wfail chunks ⟨0, 0, [], some [], [], 0⟩ st' rfl heq hne
  simpa using this

/-- C4: the rule count computed incrementally by writeFile equals the
reference count — split the whole stream on line breaks, trim each line,
skip empty lines and lines starting with '#' or '!', count the rest — for
every chunking of the stream, so lines spanning chunk boundaries are
carried over and counted once and an unterminated final line still
counts; and the example content yields ruleCount = 2. -/
theorem writeFile_rule_count_correct :
    (∀ (wfail : Option Nat) (chunks : List (List Nat)) (st' : WState),
      chunks ≠ [] → writeFile wfail chunks = .ok st' →
      st'.ruleCount = specRuleCount chunks.join) ∧
    (writeFile none [contentC4]).toOption.map WState.ruleCount = some 2 ∧
    specRuleCount contentC4 = 2 := by
  refine ⟨?_, by decide, by decide⟩
  intro wfail chunks st' hne heq
  exact writeFile_count wfail chunks st' hne heq

/-- Witness for C4: a two-chunk stream splitting one rule line across the
chunk boundary and ending without a line break is counted once per line:
"||a" ++ "ds^\nx" has two rules. -/
theorem writeFile_rule_count_witness :
    [[124, 124, 97], [100, 115, 94, 10, 120]] ≠ ([] : List (List Nat)) ∧
    writeFile none [[124, 124, 97], [100, 115, 94, 10, 120]] =
      .ok ⟨2, 8, [], none, [124, 124, 97, 100, 115, 94, 10, 120], 2⟩ ∧
    (⟨2, 8, [], none, [124, 124, 97, 100, 115, 94, 10, 120], 2⟩ : WState).ruleCount =
      specRuleCount ([[124, 124, 97], [100, 115, 94, 10, 120]] : List (List Nat)).join := by
  refine ⟨by decide, rfl, ?_⟩
  exact writeFile_rule_count_correct.1 none [[124, 124, 97], [100, 115, 94, 10, 120]]
    ⟨2, 8, [], none, [124, 124, 97, 100, 115, 94, 10, 120], 2⟩ (by decide) rfl

/-! Lemmas towards the id-uniqueness invariant: no operation changes a
descriptor's id except through a fresh allocation from the counter. -/

theorem dlWrite_ID (dir : String) (env : DLEnv) (f : Filter) (fs1 : FS)
    (chunks : List (List Nat)) :
    (dlWrite dir env f fs1 chunks).2.1.ID = f.ID := by
  rw [dlWrite]
  cases hw : writeFile env.wfail chunks with
  | error e => rfl
  | ok st =>
    dsimp only
    by_cases hr : env.renameOk = false
    · rw [if_pos hr]
    · rw [if_neg hr]

theorem downloadFilter_ID (dir : String) (env : DLEnv) (f : Filter) (fs : FS) :
    (downloadFilter dir env f fs).2.1.ID = f.ID := by
  by_cases ht : env.tmpOk = false
  · rw [downloadFilter_eq_tmpFail dir env f fs ht]
  · have ht' : env.tmpOk = true := by
      cases h : env.tmpOk
      · exact absurd h ht
      · rfl
    cases hab : isAbs f.URL with
    | true =>
      cases hl : env.localChunks with
      | none => rw [downloadFilter_eq_localNone dir env f fs ht' hab hl]
      | some chunks =>
        rw [downloadFilter_eq_localSome dir env f fs chunks ht' hab hl]
        exact dlWrite_ID dir env f _ chunks
    | false =>
      cases htr : env.transport with
      | none => rw [downloadFilter_eq_netFail dir env f fs ht' hab htr]
      | some trip =>
        obtain ⟨code, lm, chunks⟩ := trip
        rw [downloadFilter_eq_netSome dir env f fs code lm chunks ht' hab htr]
        by_cases h304 : code = 304
        · rw [if_pos h304]
        · rw [if_neg h304]
          by_cases h200 : code = 200
          · subst h200
            rw [if_neg (by simp)]
            exact dlWrite_ID dir env _ _ chunks
          · rw [if_pos h200]

theorem modifyFlags_ID (f : Filter) (enabled : Bool) (name newURL : String) :
    (modifyFlags f enabled name newURL).1.ID = f.ID := by
  rw [modifyFlags]
  dsimp only
  split
  · split
    · rfl
    · rfl
  · split
    · rfl
    · rfl

theorem modifyDownload_ids (dir : String) (env : DLEnv) (backup f : Filter)
    (t : List Filter) (nid : Nat) (fs : FS) (st : Nat) :
    (modifyDownload dir env backup f t nid fs st).nextID = nid ∧
    ((modifyDownload dir env backup f t nid fs st).list = backup :: t ∨
     ∃ f2, (modifyDownload dir env backup f t nid fs st).list = f2 :: t ∧
       f2.ID = f.ID) := by
  rw [modifyDownload]
  rcases hdl : downloadFilter dir env { f with LastModified := "", RuleCount := 0 } fs
    with ⟨err, f2, fs2⟩
  have hid : f2.ID = f.ID := by
    have := downloadFilter_ID dir env { f with LastModified := "", RuleCount := 0 } fs
    rw [hdl] at this
    exact this
  cases err with
  | none => exact ⟨rfl, Or.inr ⟨f2, rfl, hid⟩⟩
  | some e => exact ⟨rfl, Or.inl rfl⟩

theorem modifyMatch_ids (dir : String) (env : DLEnv) (enabled : Bool)
    (name newURL : String) (nid : Nat) (fs : FS) (f : Filter) (t : List Filter) :
    nid ≤ (modifyMatch dir env enabled name newURL nid fs f t).nextID ∧
    ∃ f2, (modifyMatch dir env enabled name newURL nid fs f t).list = f2 :: t ∧
      (f2.ID = f.ID ∨
       (f2.ID = (modifyMatch dir env enabled name newURL nid fs f t).nextID ∧
        nid < (modifyMatch dir env enabled name newURL nid fs f t).nextID)) := by
  rw [modifyMatch]
  by_cases h1 : (modifyFlags f enabled name newURL).2 &&& StatusChangedURL ≠ 0
  · rw [if_pos h1]
    obtain ⟨hn, hl⟩ := modifyDownload_ids dir env f
      { (modifyFlags f enabled name newURL).1 with ID := nid + 1 } t (nid + 1) fs
      (modifyFlags f enabled name newURL).2
    refine ⟨le_of_le_of_eq (Nat.le_succ nid) hn.symm, ?_⟩
    rcases hl with hl | ⟨f2, hl, hid⟩
    · exact ⟨f, hl, Or.inl rfl⟩
    · have h2 : f2.ID = nid + 1 := hid
      exact ⟨f2, hl, Or.inr ⟨h2.trans hn.symm, lt_of_lt_of_eq (Nat.lt_succ_self nid) hn.symm⟩⟩
  · rw [if_neg h1]
    by_cases h2 : (modifyFlags f enabled name newURL).2 &&& StatusChangedEnabled ≠ 0 ∧
        enabled = true
    · rw [if_pos h2]
      cases hlook : fs (filePath dir (modifyFlags f enabled name newURL).1) with
      | none =>
        obtain ⟨hn, hl⟩ := modifyDownload_ids dir env f
          (modifyFlags f enabled name newURL).1 t nid fs
          (modifyFlags f enabled name newURL).2
        refine ⟨le_of_eq hn.symm, ?_⟩
        rcases hl with hl | ⟨f2, hl, hid⟩
        · exact ⟨f, hl, Or.inl rfl⟩
        · exact ⟨f2, hl, Or.inl (hid.trans (modifyFlags_ID f enabled name newURL))⟩
      | some d =>
        exact ⟨Nat.le_refl nid,
          ⟨_, rfl, Or.inl (modifyFlags_ID f enabled name newURL)⟩⟩
    · rw [if_neg h2]
      exact ⟨Nat.le_refl nid, ⟨_, rfl, Or.inl (modifyFlags_ID f enabled name newURL)⟩⟩

theorem modifyLoop_ids (dir : String) (env : DLEnv) (url : String) (enabled : Bool)
    (name newURL : String) :
    ∀ (l : List Filter) (nid : Nat) (fs : FS),
      (∀ f ∈ l, f.ID ≤ nid) →
      l.Pairwise (fun a b => a.ID ≠ b.ID) →
      nid ≤ (modifyLoop dir env url enabled name newURL nid fs l).nextID ∧
      (∀ f ∈ (modifyLoop dir env url enabled name newURL nid fs l).list,
        f.ID ≤ (modifyLoop dir env url enabled name newURL nid fs l).nextID) ∧
      (modifyLoop dir env url enabled name newURL nid fs l).list.Pairwise
        (fun a b => a.ID ≠ b.ID) ∧
      (∀ f ∈ (modifyLoop dir env url enabled name newURL nid fs l).list,
        f.ID ∈ l.map Filter.ID ∨ nid < f.ID) := by
  intro l
  induction l with
  | nil =>
    intro nid fs _ _
    exact ⟨Nat.le_refl nid, by simp [modifyLoop], by simp [modifyLoop],
      by simp [modifyLoop]⟩
  | cons f t ih =>
    intro nid fs hbound hpw
    rw [modifyLoop]
    by_cases hf : (f.URL == url) = true
    · rw [if_pos hf]
      obtain ⟨hn, f2, hl, hid⟩ := modifyMatch_ids dir env enabled name newURL nid fs f t
      rw [hl]
      have hft : ∀ g ∈ t, f.ID ≠ g.ID := (List.pairwise_cons.mp hpw).1
      have htpw : t.Pairwise (fun a b => a.ID ≠ b.ID) := (List.pairwise_cons.mp hpw).2
      have hbt : ∀ g ∈ t, g.ID ≤ nid := fun g hg => hbound g (List.mem_cons_of_mem f hg)
      refine ⟨hn, ?_, ?_, ?_⟩
      · intro g hg
        rcases List.mem_cons.mp hg with rfl | hgt
        · rcases hid with hid | ⟨hid, _⟩
          · rw [hid]
            exact le_trans (hbound f (List.mem_cons_self f t)) hn
          · rw [hid]
        · exact le_trans (hbt g hgt) hn
      · rw [List.pairwise_cons]
        refine ⟨?_, htpw⟩
        intro g hg
        rcases hid with hid | ⟨hid, hlt⟩
        · rw [hid]
          exact hft g hg
        · rw [hid]
          have := hbt g hg
          omega
      · intro g hg
        rcases List.mem_cons.mp hg with rfl | hgt
        · rcases hid with hid | ⟨hid, hlt⟩
          · refine Or.inl ?_
            rw [hid]
            exact List.mem_map_of_mem Filter.ID (List.mem_cons_self f t)
          · exact Or.inr (by omega)
        · exact Or.inl (List.mem_map_of_mem Filter.ID (List.mem_cons_of_mem f hgt))
    · rw [if_neg hf]
      have hft : ∀ g ∈ t, f.ID ≠ g.ID := (List.pairwise_cons.mp hpw).1
      have htpw : t.Pairwise (fun a b => a.ID ≠ b.ID) := (List.pairwise_cons.mp hpw).2
      have hbt : ∀ g ∈ t, g.ID ≤ nid := fun g hg => hbound g (List.mem_cons_of_mem f hg)
      obtain ⟨hn, hb, hpw2, hmem⟩ := ih nid fs hbt htpw
      dsimp only
      refine ⟨hn, ?_, ?_, ?_⟩
      · intro g hg
        rcases List.mem_cons.mp hg with rfl | hgt
        · exact le_trans (hbound _ (List.mem_cons_self _ t)) hn
        · exact hb g hgt
      · rw [List.pairwise_cons]
        refine ⟨?_, hpw2⟩
        intro g hg
        rcases hmem g hg with hgm | hlt
        · obtain ⟨g0, hg0, hgid⟩ := List.mem_map.mp hgm
          rw [← hgid]
          exact hft g0 hg0
        · have := hbound f (List.mem_cons_self f t)
          omega
      · intro g hg
        rcases List.mem_cons.mp hg with rfl | hgt
        · exact Or.inl (List.mem_map_of_mem Filter.ID (List.mem_cons_self _ t))
        · rcases hmem g hgt with hgm | hlt
          · obtain ⟨g0, hg0, hgid⟩ := List.mem_map.mp hgm
            exact Or.inl (List.mem_map.mpr ⟨g0, List.mem_cons_of_mem f hg0, hgid⟩)
          · exact Or.inr hlt

theorem Add_eq_err (s : Stg) (fs : FS) (env : DLEnv) (nf : Filter) (e : FErr)
    (f2 : Filter) (fs2 : FS)
    (hd : s.list.any (fun f => f.Name == nf.Name || f.URL == nf.URL) = false)
    (hdl : downloadFilter s.dir env { nf with ID := s.nextID + 1, Enabled := true } fs =
      (some e, f2, fs2)) :
    Add s fs env nf = ({ s with nextID := s.nextID + 1 }, fs2, some e) := by
  rw [Add, if_neg (by simp [hd])]
  dsimp only
  rw [hdl]

theorem Add_eq_ok (s : Stg) (fs : FS) (env : DLEnv) (nf : Filter)
    (f2 : Filter) (fs2 : FS)
    (hd : s.list.any (fun f => f.Name == nf.Name || f.URL == nf.URL) = false)
    (hdl : downloadFilter s.dir env { nf with ID := s.nextID + 1, Enabled := true } fs =
      (none, f2, fs2)) :
    Add s fs env nf =
      ({ s with nextID := s.nextID + 1, list := s.list ++ [f2] }, fs2, none) := by
  rw [Add, if_neg (by simp [hd])]
  dsimp only
  rw [hdl]

theorem Add_ids (s : Stg) (fs : FS) (env : DLEnv) (nf : Filter)
    (hb : ∀ f ∈ s.list, f.ID ≤ s.nextID)
    (hpw : s.list.Pairwise (fun a b => a.ID ≠ b.ID)) :
    (∀ f ∈ (Add s fs env nf).1.list, f.ID ≤ (Add s fs env nf).1.nextID) ∧
    (Add s fs env nf).1.list.Pairwise (fun a b => a.ID ≠ b.ID) := by
  by_cases hd : s.list.any (fun f => f.Name == nf.Name || f.URL == nf.URL) = true
  · rw [Add, if_pos hd]
    exact ⟨hb, hpw⟩
  · have hd' : s.list.any (fun f => f.Name == nf.Name || f.URL == nf.URL) = false := by
      cases h : s.list.any (fun f => f.Name == nf.Name || f.URL == nf.URL)
      · rfl
      · exact absurd h hd
    rcases hdl : downloadFilter s.dir env { nf with ID := s.nextID + 1, Enabled := true } fs
      with ⟨err, f2, fs2⟩
    have hid : f2.ID = s.nextID + 1 := by
      have := downloadFilter_ID s.dir env
        { nf with ID := s.nextID + 1, Enabled := true } fs
      rw [hdl] at this
      exact this
    cases err with
    | some e =>
      rw [Add_eq_err s fs env nf e f2 fs2 hd' hdl]
      exact ⟨fun f hf => le_trans (hb f hf) (Nat.le_succ _), hpw⟩
    | none =>
      rw [Add_eq_ok s fs env nf f2 fs2 hd' hdl]
      constructor
      · intro f hf
        rcases List.mem_append.mp hf with hf | hf
        · exact le_trans (hb f hf) (Nat.le_succ _)
        · rw [List.mem_singleton.mp hf, hid]
      · rw [List.pairwise_append]
        refine ⟨hpw, by simp, ?_⟩
        intro a ha b hbm
        rw [List.mem_singleton.mp hbm, hid]
        have := hb a ha
        omega

theorem Delete_ids (s : Stg) (url : String)
    (hb : ∀ f ∈ s.list, f.ID ≤ s.nextID)
    (hpw : s.list.Pairwise (fun a b => a.ID ≠ b.ID)) :
    (∀ f ∈ (Delete s url).1.list, f.ID ≤ (Delete s url).1.nextID) ∧
    (Delete s url).1.list.Pairwise (fun a b => a.ID ≠ b.ID) := by
  rw [Delete]
  cases hlast : (s.list.filter (fun f => f.URL == url)).getLast? with
  | none => exact ⟨hb, hpw⟩
  | some f =>
    dsimp only
    constructor
    · intro g hg
      exact hb g (List.mem_of_mem_filter hg)
    · exact hpw.sublist (List.filter_sublist s.list)

theorem fstep_ids {p q : Stg × FS} (h : FStep p q)
    (hb : ∀ f ∈ p.1.list, f.ID ≤ p.1.nextID)
    (hpw : p.1.list.Pairwise (fun a b => a.ID ≠ b.ID)) :
    (∀ f ∈ q.1.list, f.ID ≤ q.1.nextID) ∧
    q.1.list.Pairwise (fun a b => a.ID ≠ b.ID) := by
  cases h with
  | add s fs env nf => exact Add_ids s fs env nf hb hpw
  | del s fs url => exact Delete_ids s url hb hpw
  | mod s fs env url enabled name newURL =>
    obtain ⟨_, hb2, hpw2, _⟩ := modifyLoop_ids s.dir env url enabled name newURL
      s.list s.nextID fs hb hpw
    exact ⟨hb2, hpw2⟩

theorem reachable_ids (p : Stg × FS) (h : Reachable p) :
    (∀ f ∈ p.1.list, f.ID ≤ p.1.nextID) ∧
    p.1.list.Pairwise (fun a b => a.ID ≠ b.ID) := by
  induction h with
  | init dir ih n0 fs0 => exact ⟨by simp, by simp⟩
  | step h1 h2 ih => exact fstep_ids h2 ih.1 ih.2

/-- Counterexample for C2: a reachable registry state in which two
descriptors agree on both name and url.  Add enforces the uniqueness
check, but Modify does not: renaming filter "b"/"u2" to "a"/"u1" (with a
successful download) duplicates the pair already held by the first
filter. -/
theorem registry_pair_unique_cex :
    Reachable (cexM.stg, cexM.fs) ∧ pairsUniqueB cexM.stg.list = false := by
  constructor
  · have h0 : Reachable (cexS0, cexFS0) := Reachable.init "d" 24 100 cexFS0
    have h1 : Reachable (cexP1.1, cexP1.2.1) :=
      h0.step (FStep.add cexS0 cexFS0 (cexEnv "t1") (cexFilter "a" "u1"))
    have h2 : Reachable (cexP2.1, cexP2.2.1) :=
      h1.step (FStep.add cexP1.1 cexP1.2.1 (cexEnv "t2") (cexFilter "b" "u2"))
    exact h2.step (FStep.mod cexP2.1 cexP2.2.1 (cexEnv "t3") "u2" true "a" "u1")
  · decide

/-- C2 (amended): in every registry state reachable through Add, Delete
and Modify all descriptor ids are unique; (name, url) pair uniqueness,
however, is not an invariant — Add checks it but Modify performs no
duplicate check (see the counterexample). -/
theorem registry_ids_unique_reachable (p : Stg × FS) (h : Reachable p) :
    p.1.list.Pairwise (fun a b => a.ID ≠ b.ID) :=
  (reachable_ids p h).2

/-- Witness for C2 (amended): the ids in the three-step counterexample
state are pairwise distinct. -/
theorem registry_ids_unique_witness :
    cexM.stg.list.Pairwise (fun a b => a.ID ≠ b.ID) := by
  refine registry_ids_unique_reachable (cexM.stg, cexM.fs) ?_
  have h0 : Reachable (cexS0, cexFS0) := Reachable.init "d" 24 100 cexFS0
  have h1 : Reachable (cexP1.1, cexP1.2.1) :=
    h0.step (FStep.add cexS0 cexFS0 (cexEnv "t1") (cexFilter "a" "u1"))
  have h2 : Reachable (cexP2.1, cexP2.2.1) :=
    h1.step (FStep.add cexP1.1 cexP1.2.1 (cexEnv "t2") (cexFilter "b" "u2"))
  exact h2.step (FStep.mod cexP2.1 cexP2.2.1 (cexEnv "t3") "u2" true "a" "u1")

/-! Infrastructure for the update-pass theorem: due filters, list-set
lemmas, and step equations of the pass loop. -/

theorem list_get_set_self {α : Type} (x : α) :
    ∀ (l : List α) (i : Nat), i < l.length → (l.set i x).get? i = some x := by
  intro l
  induction l with
  | nil => intro i h; simp at h
  | cons f t ih =>
    intro i h
    cases i with
    | zero => rfl
    | succ j => exact ih j (by simpa using h)

theorem list_get_set_other {α : Type} (x : α) :
    ∀ (l : List α) (i j : Nat), i ≠ j → (l.set i x).get? j = l.get? j := by
  intro l
  induction l with
  | nil => intro i j _; simp
  | cons f t ih =>
    intro i j hne
    cases i with
    | zero =>
      cases j with
      | zero => exact absurd rfl hne
      | succ j2 => rfl
    | succ i2 =>
      cases j with
      | zero => rfl
      | succ j2 => exact ih i2 j2 (fun he => hne (by rw [he]))

theorem mem_of_get? {α : Type} :
    ∀ (l : List α) (i : Nat) (g : α), l.get? i = some g → g ∈ l := by
  intro l
  induction l with
  | nil => intro i g h; simp [List.get?] at h
  | cons f t ih =>
    intro i g h
    cases i with
    | zero =>
      injection h with h
      subst h
      exact List.mem_cons_self _ _
    | succ j => exact List.mem_cons_of_mem f (ih j g h)

theorem dueB_true_iff (now : Nat) (f : Filter) :
    dueB now f = true ↔ (f.Enabled = true ∧ f.nextUpdate ≤ now) := by
  simp [dueB]

theorem dueB_false_iff (now : Nat) (f : Filter) :
    dueB now f = false ↔ ¬(f.Enabled = true ∧ f.nextUpdate ≤ now) := by
  rw [← dueB_true_iff]
  cases dueB now f <;> simp

theorem countP_set_eq (p : Filter → Bool) :
    ∀ (l : List Filter) (i : Nat) (g x : Filter), l.get? i = some g →
      (l.set i x).countP p + (if p g then 1 else 0) =
        l.countP p + (if p x then 1 else 0) := by
  intro l
  induction l with
  | nil => intro i g x h; simp [List.get?] at h
  | cons f t ih =>
    intro i g x h
    cases i with
    | zero =>
      injection h with h
      subst h
      cases hpg : p f <;> cases hpx : p x <;>
        simp [List.countP_cons, hpg, hpx] <;> omega
    | succ j =>
      have hrec := ih j g x h
      cases hpg : p g <;> cases hpx : p x <;> cases hpf : p f <;>
        simp [List.countP_cons, hpg, hpx, hpf] at hrec ⊢ <;> omega

theorem getNextToUpdate_none (now ihs : Nat) :
    ∀ l : List Filter, getNextToUpdate now ihs l = none →
      ∀ f ∈ l, dueB now f = false := by
  intro l
  induction l with
  | nil => intro _ f hf; simp at hf
  | cons f t ih =>
    intro h g hg
    rw [getNextToUpdate] at h
    by_cases hd : f.Enabled = true ∧ f.nextUpdate ≤ now
    · rw [if_pos hd] at h
      exact absurd h (by simp)
    · rw [if_neg hd] at h
      cases hrec : getNextToUpdate now ihs t with
      | none =>
        rcases List.mem_cons.mp hg with rfl | hgt
        · exact (dueB_false_iff now _).mpr hd
        · exact ih hrec g hgt
      | some q =>
        obtain ⟨a, b, c⟩ := q
        rw [hrec] at h
        exact absurd h (by simp)

theorem getNextToUpdate_some (now ihs : Nat) :
    ∀ (l : List Filter) (i : Nat) (sel : Filter) (l' : List Filter),
      getNextToUpdate now ihs l = some (i, sel, l') →
      ∃ g, l.get? i = some g ∧ dueB now g = true ∧
        sel = { g with nextUpdate := now + ihs } ∧ l' = l.set i sel := by
  intro l
  induction l with
  | nil =>
    intro i sel l' h
    rw [getNextToUpdate] at h
    exact absurd h (by simp)
  | cons f t ih =>
    intro i sel l' h
    rw [getNextToUpdate] at h
    by_cases hd : f.Enabled = true ∧ f.nextUpdate ≤ now
    · rw [if_pos hd] at h
      simp only [Option.some.injEq, Prod.mk.injEq] at h
      obtain ⟨h1, h2, h3⟩ := h
      subst h1
      refine ⟨f, rfl, (dueB_true_iff now f).mpr hd, h2.symm, ?_⟩
      rw [← h3, ← h2]
      rfl
    · rw [if_neg hd] at h
      cases hrec : getNextToUpdate now ihs t with
      | none =>
        rw [hrec] at h
        exact absurd h (by simp)
      | some q =>
        obtain ⟨j, selj, tj⟩ := q
        rw [hrec] at h
        simp only [Option.some.injEq, Prod.mk.injEq] at h
        obtain ⟨h1, h2, h3⟩ := h
        obtain ⟨g, hget, hdue, hseleq, hset⟩ := ih j selj tj hrec
        subst h1
        refine ⟨g, hget, hdue, ?_, ?_⟩
        · rw [← h2]
          exact hseleq
        · rw [← h3, hset, ← h2]
          rfl

theorem updateAllLoop_step_err (dir : String) (ih now : Nat) (envs : Nat → DLEnv)
    (fuel attempt : Nat) (st : UState) (i : Nat) (sel : Filter) (list1 : List Filter)
    (e : FErr) (uf1 : Filter) (fs1 : FS)
    (hg : getNextToUpdate now (ih * 3600) st.list = some (i, sel, list1))
    (hdl : downloadFilter dir (envs attempt) { sel with ID := st.nextID + 1 } st.fs =
      (some e, uf1, fs1)) :
    updateAllLoop dir ih now envs (fuel + 1) attempt st =
      updateAllLoop dir ih now envs fuel (attempt + 1)
        ⟨if uf1.networkError then list1.set i { sel with nextUpdate := now + 10 }
          else list1,
         st.nextID + 1, fs1, st.updated, st.attempted ++ [sel.URL]⟩ := by
  rw [updateAllLoop, hg]
  dsimp only
  rw [hdl]

theorem updateAllLoop_step_ok (dir : String) (ih now : Nat) (envs : Nat → DLEnv)
    (fuel attempt : Nat) (st : UState) (i : Nat) (sel : Filter) (list1 : List Filter)
    (uf1 : Filter) (fs1 : FS)
    (hg : getNextToUpdate now (ih * 3600) st.list = some (i, sel, list1))
    (hdl : downloadFilter dir (envs attempt) { sel with ID := st.nextID + 1 } st.fs =
      (none, uf1, fs1)) :
    updateAllLoop dir ih now envs (fuel + 1) attempt st =
      updateAllLoop dir ih now envs fuel (attempt + 1)
        ⟨list1, st.nextID + 1, fs1, st.updated ++ [uf1], st.attempted ++ [sel.URL]⟩ := by
  rw [updateAllLoop, hg]
  dsimp only
  rw [hdl]

theorem updateAllLoop_step_none (dir : String) (ih now : Nat) (envs : Nat → DLEnv)
    (fuel attempt : Nat) (st : UState)
    (hg : getNextToUpdate now (ih * 3600) st.list = none) :
    updateAllLoop dir ih now envs (fuel + 1) attempt st = st := by
  rw [updateAllLoop, hg]

theorem get_some_lt {α : Type} :
    ∀ (l : List α) (i : Nat) (g : α), l.get? i = some g → i < l.length := by
  intro l
  induction l with
  | nil => intro i g h; simp [List.get?] at h
  | cons a t ih =>
    intro i g h
    cases i with
    | zero => simp
    | succ j => exact Nat.succ_lt_succ (ih j g h)

theorem countP_le_len {α : Type} (p : α → Bool) :
    ∀ l : List α, l.countP p ≤ l.length := by
  intro l
  induction l with
  | nil => simp
  | cons a t ih =>
    cases h : p a <;> simp [List.countP_cons, h] <;> omega

theorem updateAllLoop_mono (dir : String) (ih now : Nat) (envs : Nat → DLEnv) :
    ∀ (fuel attempt : Nat) (st : UState) (x : String),
      x ∈ st.attempted →
      x ∈ (updateAllLoop dir ih now envs fuel attempt st).attempted := by
  intro fuel
  induction fuel with
  | zero => intro attempt st x hx; exact hx
  | succ n ihf =>
    intro attempt st x hx
    cases hg : getNextToUpdate now (ih * 3600) st.list with
    | none =>
      rw [updateAllLoop_step_none dir ih now envs n attempt st hg]
      exact hx
    | some q =>
      obtain ⟨i, sel, list1⟩ := q
      rcases hdl : downloadFilter dir (envs attempt) { sel with ID := st.nextID + 1 } st.fs
        with ⟨o, uf1, fs1⟩
      cases o with
      | some err =>
        rw [updateAllLoop_step_err dir ih now envs n attempt st i sel list1 err uf1 fs1 hg hdl]
        exact ihf (attempt + 1)
          ⟨if uf1.networkError then list1.set i { sel with nextUpdate := now + 10 } else list1,
           st.nextID + 1, fs1, st.updated, st.attempted ++ [sel.URL]⟩ x
          (List.mem_append_left _ hx)
      | none =>
        rw [updateAllLoop_step_ok dir ih now envs n attempt st i sel list1 uf1 fs1 hg hdl]
        exact ihf (attempt + 1)
          ⟨list1, st.nextID + 1, fs1, st.updated ++ [uf1], st.attempted ++ [sel.URL]⟩ x
          (List.mem_append_left _ hx)

theorem updateAllLoop_preserves (dir : String) (ih now : Nat) (envs : Nat → DLEnv) :
    ∀ (fuel attempt : Nat) (st : UState) (j : Nat) (g : Filter),
      st.list.get? j = some g → dueB now g = false →
      (updateAllLoop dir ih now envs fuel attempt st).list.get? j = some g := by
  intro fuel
  induction fuel with
  | zero => intro attempt st j g hget _; exact hget
  | succ n ihf =>
    intro attempt st j g hget hdue
    cases hg : getNextToUpdate now (ih * 3600) st.list with
    | none =>
      rw [updateAllLoop_step_none dir ih now envs n attempt st hg]
      exact hget
    | some q =>
      obtain ⟨i, sel, list1⟩ := q
      obtain ⟨g0, hget0, hdue0, hseleq, hset⟩ :=
        getNextToUpdate_some now (ih * 3600) st.list i sel list1 hg
      have hij : i ≠ j := by
        intro he
        subst he
        rw [hget] at hget0
        injection hget0 with he2
        rw [← he2] at hdue0
        rw [hdue0] at hdue
        exact absurd hdue (by simp)
      have hl1 : list1.get? j = st.list.get? j := by
        rw [hset]
        exact list_get_set_other sel st.list i j hij
      rcases hdl : downloadFilter dir (envs attempt) { sel with ID := st.nextID + 1 } st.fs
        with ⟨o, uf1, fs1⟩
      cases o with
      | some err =>
        rw [updateAllLoop_step_err dir ih now envs n attempt st i sel list1 err uf1 fs1 hg hdl]
        have hget' : (if uf1.networkError
            then list1.set i { sel with nextUpdate := now + 10 }
            else list1).get? j = some g := by
          cases hnw : uf1.networkError
          · rw [if_neg (by simp [hnw]), hl1]
            exact hget
          · rw [if_pos (by simp [hnw]),
                list_get_set_other { sel with nextUpdate := now + 10 } list1 i j hij, hl1]
            exact hget
        exact ihf (attempt + 1)
          ⟨if uf1.networkError then list1.set i { sel with nextUpdate := now + 10 } else list1,
           st.nextID + 1, fs1, st.updated, st.attempted ++ [sel.URL]⟩ j g hget' hdue
      | none =>
        rw [updateAllLoop_step_ok dir ih now envs n attempt st i sel list1 uf1 fs1 hg hdl]
        have hget' : list1.get? j = some g := by
          rw [hl1]
          exact hget
        exact ihf (attempt + 1)
          ⟨list1, st.nextID + 1, fs1, st.updated ++ [uf1], st.attempted ++ [sel.URL]⟩ j g
          hget' hdue

theorem updateAllLoop_covers (dir : String) (ih now : Nat) (envs : Nat → DLEnv)
    (hih : 1 ≤ ih) :
    ∀ (fuel attempt : Nat) (st : UState),
      dueCount now st.list ≤ fuel →
      ∀ (j : Nat) (g : Filter), st.list.get? j = some g → dueB now g = true →
        g.URL ∈ (updateAllLoop dir ih now envs fuel attempt st).attempted := by
  intro fuel
  induction fuel with
  | zero =>
    intro attempt st hfc j g hget hdue
    exfalso
    have h0 : dueCount now st.list = 0 := Nat.le_zero.mp hfc
    have hall := List.countP_eq_zero.mp h0
    exact absurd hdue (hall g (mem_of_get? st.list j g hget))
  | succ n ihf =>
    intro attempt st hfc j g hget hdue
    cases hg : getNextToUpdate now (ih * 3600) st.list with
    | none =>
      have hfalse := getNextToUpdate_none now (ih * 3600) st.list hg g
        (mem_of_get? st.list j g hget)
      rw [hfalse] at hdue
      exact absurd hdue (by simp)
    | some q =>
      obtain ⟨i, sel, list1⟩ := q
      obtain ⟨g0, hget0, hdue0, hseleq, hset⟩ :=
        getNextToUpdate_some now (ih * 3600) st.list i sel list1 hg
      have hselnd : dueB now sel = false := by
        apply (dueB_false_iff now sel).mpr
        rw [hseleq]
        rintro ⟨-, hle⟩
        dsimp only at hle
        omega
      have hxnd : dueB now { sel with nextUpdate := now + 10 } = false := by
        apply (dueB_false_iff now { sel with nextUpdate := now + 10 }).mpr
        rintro ⟨-, hle⟩
        dsimp only at hle
        omega
      have hlen : i < st.list.length := get_some_lt st.list i g0 hget0
      have hget1 : list1.get? i = some sel := by
        rw [hset]
        exact list_get_set_self sel st.list i hlen
      have hc1 : dueCount now list1 + 1 = dueCount now st.list := by
        have h := countP_set_eq (dueB now) st.list i g0 sel hget0
        simp [hdue0, hselnd] at h
        simpa [dueCount, hset] using h
      have hc2 : dueCount now (list1.set i { sel with nextUpdate := now + 10 }) =
          dueCount now list1 := by
        have h := countP_set_eq (dueB now) list1 i sel { sel with nextUpdate := now + 10 } hget1
        simp [hselnd, hxnd] at h
        simpa [dueCount] using h
      rcases hdl : downloadFilter dir (envs attempt) { sel with ID := st.nextID + 1 } st.fs
        with ⟨o, uf1, fs1⟩
      by_cases hji : j = i
      · subst hji
        rw [hget] at hget0
        injection hget0 with he2
        have hurl : g.URL = sel.URL := by
          rw [hseleq, ← he2]
        cases o with
        | some err =>
          rw [updateAllLoop_step_err dir ih now envs n attempt st j sel list1 err uf1 fs1 hg hdl]
          apply updateAllLoop_mono
          show g.URL ∈ st.attempted ++ [sel.URL]
          rw [hurl]
          exact List.mem_append_right _ (List.mem_cons_self _ _)
        | none =>
          rw [updateAllLoop_step_ok dir ih now envs n attempt st j sel list1 uf1 fs1 hg hdl]
          apply updateAllLoop_mono
          show g.URL ∈ st.attempted ++ [sel.URL]
          rw [hurl]
          exact List.mem_append_right _ (List.mem_cons_self _ _)
      · have hij : i ≠ j := fun he => hji he.symm
        have hl1 : list1.get? j = some g := by
          rw [hset, list_get_set_other sel st.list i j hij]
          exact hget
        cases o with
        | some err =>
          rw [updateAllLoop_step_err dir ih now envs n attempt st i sel list1 err uf1 fs1 hg hdl]
          have hget' : (if uf1.networkError
              then list1.set i { sel with nextUpdate := now + 10 }
              else list1).get? j = some g := by
            cases hnw : uf1.networkError
            · rw [if_neg (by simp [hnw])]
              exact hl1
            · rw [if_pos (by simp [hnw]),
                  list_get_set_other { sel with nextUpdate := now + 10 } list1 i j hij]
              exact hl1
          have hdc : dueCount now (if uf1.networkError
              then list1.set i { sel with nextUpdate := now + 10 }
              else list1) ≤ n := by
            cases hnw : uf1.networkError
            · rw [if_neg (by simp [hnw])]
              omega
            · rw [if_pos (by simp [hnw]), hc2]
              omega
          exact ihf (attempt + 1)
            ⟨if uf1.networkError then list1.set i { sel with nextUpdate := now + 10 } else list1,
             st.nextID + 1, fs1, st.updated, st.attempted ++ [sel.URL]⟩ hdc j g hget' hdue
        | none =>
          rw [updateAllLoop_step_ok dir ih now envs n attempt st i sel list1 uf1 fs1 hg hdl]
          have hdc : dueCount now list1 ≤ n := by omega
          exact ihf (attempt + 1)
            ⟨list1, st.nextID + 1, fs1, st.updated ++ [uf1], st.attempted ++ [sel.URL]⟩ hdc j g
            hl1 hdue

/-- C8: during one updateAll pass, when the first due filter's fetch fails
at the transport level the original descriptor's nextUpdate becomes
now + 10, while a fetch failing with a non-200/304 HTTP status leaves the
descriptor at the normal-interval nextUpdate it was rescheduled to when it
was picked; in both runs every due filter of the pass has its url
attempted, so one filter's failure never aborts the pass. -/
theorem updateAll_failure_handling
    (dir : String) (ih now : Nat) (envsA envsB : Nat → DLEnv) (st : UState)
    (i : Nat) (sel : Filter) (list1 : List Filter)
    (codeB : Nat) (lmB : String) (chunksB : List (List Nat))
    (hih : 1 ≤ ih)
    (hg : getNextToUpdate now (ih * 3600) st.list = some (i, sel, list1))
    (hsnw : sel.networkError = false)
    (hA : (envsA 0).tmpOk = true) (hAl : isAbs sel.URL = false)
    (hAt : (envsA 0).transport = none)
    (hB : (envsB 0).tmpOk = true)
    (hBt : (envsB 0).transport = some (codeB, lmB, chunksB))
    (hB200 : codeB ≠ 200) (hB304 : codeB ≠ 304) :
    (∃ g, st.list.get? i = some g ∧ dueB now g = true ∧
        sel = { g with nextUpdate := now + ih * 3600 }) ∧
    (updateAll dir ih now envsA st).list.get? i =
        some { sel with nextUpdate := now + 10 } ∧
    (updateAll dir ih now envsB st).list.get? i = some sel ∧
    (∀ j g, st.list.get? j = some g → dueB now g = true →
        g.URL ∈ (updateAll dir ih now envsA st).attempted ∧
        g.URL ∈ (updateAll dir ih now envsB st).attempted) := by
  obtain ⟨g0, hget0, hdue0, hseleq, hset⟩ :=
    getNextToUpdate_some now (ih * 3600) st.list i sel list1 hg
  have hlen : i < st.list.length := get_some_lt st.list i g0 hget0
  have hlen1 : i < list1.length := by
    rw [hset, List.length_set]
    exact hlen
  have hget1 : list1.get? i = some sel := by
    rw [hset]
    exact list_get_set_self sel st.list i hlen
  have hselnd : dueB now sel = false := by
    apply (dueB_false_iff now sel).mpr
    rw [hseleq]
    rintro ⟨-, hle⟩
    dsimp only at hle
    omega
  have hxnd : dueB now { sel with nextUpdate := now + 10 } = false := by
    apply (dueB_false_iff now { sel with nextUpdate := now + 10 }).mpr
    rintro ⟨-, hle⟩
    dsimp only at hle
    omega
  have hx : (list1.set i { sel with nextUpdate := now + 10 }).get? i =
      some { sel with nextUpdate := now + 10 } :=
    list_get_set_self { sel with nextUpdate := now + 10 } list1 i hlen1
  obtain ⟨m, hm⟩ : ∃ m, st.list.length = m + 1 := ⟨st.list.length - 1, by omega⟩
  have hdlA : downloadFilter dir (envsA 0) { sel with ID := st.nextID + 1 } st.fs =
      (some .network, { { sel with ID := st.nextID + 1 } with networkError := true },
       fsRemove (fsSet st.fs (envsA 0).tmpName ⟨[], (envsA 0).now⟩) (envsA 0).tmpName) :=
    downloadFilter_eq_netFail dir (envsA 0) { sel with ID := st.nextID + 1 } st.fs hA hAl hAt
  have hdlB : downloadFilter dir (envsB 0) { sel with ID := st.nextID + 1 } st.fs =
      (some (.httpStatus codeB), { sel with ID := st.nextID + 1 },
       fsRemove (fsSet st.fs (envsB 0).tmpName ⟨[], (envsB 0).now⟩) (envsB 0).tmpName) := by
    rw [downloadFilter_eq_netSome dir (envsB 0) { sel with ID := st.nextID + 1 } st.fs
        codeB lmB chunksB hB hAl hBt,
      if_neg hB304, if_pos hB200]
  have hA2 : (updateAll dir ih now envsA st).list.get? i =
      some { sel with nextUpdate := now + 10 } := by
    show (updateAllLoop dir ih now envsA st.list.length 0 st).list.get? i =
      some { sel with nextUpdate := now + 10 }
    rw [hm, updateAllLoop_step_err dir ih now envsA m 0 st i sel list1 .network _ _ hg hdlA]
    dsimp only
    rw [if_pos rfl]
    exact updateAllLoop_preserves dir ih now envsA m 1 _ i
      { sel with nextUpdate := now + 10 } hx hxnd
  have hB2 : (updateAll dir ih now envsB st).list.get? i = some sel := by
    show (updateAllLoop dir ih now envsB st.list.length 0 st).list.get? i = some sel
    rw [hm, updateAllLoop_step_err dir ih now envsB m 0 st i sel list1
        (.httpStatus codeB) _ _ hg hdlB]
    dsimp only
    rw [if_neg (by simp [hsnw])]
    exact updateAllLoop_preserves dir ih now envsB m 1 _ i sel hget1 hselnd
  have hcov : ∀ (envs : Nat → DLEnv) (j : Nat) (g : Filter),
      st.list.get? j = some g → dueB now g = true →
      g.URL ∈ (updateAll dir ih now envs st).attempted := by
    intro envs j g hj hd
    show g.URL ∈ (updateAllLoop dir ih now envs st.list.length 0 st).attempted
    exact updateAllLoop_covers dir ih now envs hih st.list.length 0 st
      (countP_le_len (dueB now) st.list) j g hj hd
  exact ⟨⟨g0, hget0, hdue0, hseleq⟩, hA2, hB2,
    fun j g hj hd => ⟨hcov envsA j g hj hd, hcov envsB j g hj hd⟩⟩

/-- Witness for the update-pass theorem: a concrete two-due-filter state at
now = 50 where the first fetch fails (transport failure in run A, HTTP 500
in run B): the failed filter is retried at 60 in run A and keeps 3650 in
run B, and the second due filter is attempted in both runs. -/
theorem updateAll_failure_handling_witness :
    (updateAll "/d" 1 50 (fun _ => c8envA) c8st0).list.get? 0 =
        some { c8sel with nextUpdate := 60 } ∧
    (updateAll "/d" 1 50 (fun _ => c8envB) c8st0).list.get? 0 = some c8sel ∧
    c8f2.URL ∈ (updateAll "/d" 1 50 (fun _ => c8envA) c8st0).attempted ∧
    c8f2.URL ∈ (updateAll "/d" 1 50 (fun _ => c8envB) c8st0).attempted := by
  have h := updateAll_failure_handling "/d" 1 50 (fun _ => c8envA) (fun _ => c8envB) c8st0
    0 c8sel [c8sel, c8f2] 500 "" [] (by decide) (by decide) (by decide) (by decide)
    (by decide) rfl (by decide) rfl (by decide) (by decide)
  exact ⟨h.2.1, h.2.2.1, (h.2.2.2 1 c8f2 rfl (by decide)).1, (h.2.2.2 1 c8f2 rfl (by decide)).2⟩

end AdGuard
